import Mathlib

/-!
Verification development for the markdown-confluence publishing engine.

This file gives a shallow embedding, in Lean 4, of the synchronization and
publish-decision core of the repository:

* `isEqual` (packages/lib/src/isEqual.ts) — generic deep equality over
  JSON-like runtime values, modelled on the `JVal` type below;
* `adfEqual` / `orderMarks` (packages/lib/src/AdfEqual.ts) — order-insensitive
  document-tree equality over ADF documents, modelled on the `Adf` type;
* `Publisher.updatePageContent` (Publisher.ts) — the per-unit diff/update
  step, modelled as a pure function returning an outcome together with the
  ordered trace of remote calls it issues;
* `uploadBuffer` / `uploadFile` (Attachments.ts) — hash-deduplicated
  attachment upload;
* `ensurePageExists` (TreeConfluence.ts) — remote page resolution by pinned
  id or by title, with the cross-tree guard;
* `createFolderStructure` / `processNode` / `checkUniquePageTitle`
  (TreeLocal.ts) — local tree construction;
* `AutoSettingsLoader.combineSettings` and `DEFAULT_SETTINGS` (Settings.ts,
  SettingsLoader/AutoSettingsLoader.ts).

External npm dependencies (spark-md5, image-size, sort-any, the markdown
converter, the Confluence HTTP client) are modelled as explicit function
parameters or abstract environments; everything translated from repository
code follows the source control flow statement by statement.
-/

namespace MdConf

mutual
/-- JSON-like JavaScript runtime value: `null`, booleans, numbers (modelled
as integers — every number compared by the code under verification is an
integer), strings, arrays and plain objects.  Objects carry their own
properties as an insertion-ordered association list, exactly the order
`Object.getOwnPropertyNames` reports.  Arrays and field lists are separate
mutual types (`JList`, `JFields`) so that all functions over values are
structurally recursive and computable. -/
inductive JVal where
  | null
  | bool (b : Bool)
  | num (n : Int)
  | str (s : String)
  | arr (elems : JList)
  | obj (fields : JFields)
inductive JList where
  | nil
  | cons (hd : JVal) (tl : JList)
inductive JFields where
  | nil
  | fcons (key : String) (val : JVal) (tl : JFields)
end

/-- The elements of an array value, as an ordinary list. -/
def JList.toList : JList → List JVal
  | .nil => []
  | .cons h t => h :: t.toList

/-- The own properties of an object value, as an ordinary association list. -/
def JFields.toPairs : JFields → List (String × JVal)
  | .nil => []
  | .fcons k v t => (k, v) :: t.toPairs

/-- Build an array-element list from an ordinary list. -/
def JList.ofL : List JVal → JList
  | [] => .nil
  | h :: t => .cons h (JList.ofL t)

/-- Build an object field list from an ordinary association list. -/
def JFields.ofL : List (String × JVal) → JFields
  | [] => .nil
  | (k, v) :: t => .fcons k v (JFields.ofL t)

/-- Array value from an ordinary list of values. -/
def JVal.arrL (xs : List JVal) : JVal := .arr (JList.ofL xs)

/-- Object value from an ordinary association list. -/
def JVal.objL (fs : List (String × JVal)) : JVal := .obj (JFields.ofL fs)

theorem JList.toList_ofL (xs : List JVal) : (JList.ofL xs).toList = xs := by
  induction xs with
  | nil => rfl
  | cons h t ih => simp [JList.ofL, JList.toList, ih]

theorem JFields.toPairs_ofL (fs : List (String × JVal)) :
    (JFields.ofL fs).toPairs = fs := by
  induction fs with
  | nil => rfl
  | cons h t ih => cases h; simp [JFields.ofL, JFields.toPairs, ih]

mutual
/-- Structural size of a value, used only as recursion fuel. -/
def JVal.jsize : JVal → Nat
  | .null => 1
  | .bool _ => 1
  | .num _ => 1
  | .str _ => 1
  | .arr xs => 1 + xs.jsizeL
  | .obj fs => 1 + fs.jsizeFs
def JList.jsizeL : JList → Nat
  | .nil => 0
  | .cons h t => 1 + h.jsize + t.jsizeL
def JFields.jsizeFs : JFields → Nat
  | .nil => 0
  | .fcons _ v t => 1 + v.jsize + t.jsizeFs
end

theorem JVal.one_le_jsize : ∀ v : JVal, 1 ≤ v.jsize := by
  intro v
  cases v <;> simp [JVal.jsize]

theorem jsize_lt_of_mem_toList : ∀ {xs : JList} {a : JVal}, a ∈ xs.toList →
    a.jsize < (JVal.arr xs).jsize
  | .nil, a, h => by simp [JList.toList] at h
  | .cons h t, a, hm => by
    rcases List.mem_cons.mp hm with he | hm2
    · rw [he]
      simp [JVal.jsize, JList.jsizeL]
      omega
    · have := jsize_lt_of_mem_toList hm2
      simp [JVal.jsize, JList.jsizeL] at *
      omega

theorem jsize_lt_of_mem_toPairs : ∀ {fs : JFields} {k : String} {a : JVal},
    (k, a) ∈ fs.toPairs → a.jsize < (JVal.obj fs).jsize
  | .nil, k, a, h => by simp [JFields.toPairs] at h
  | .fcons k2 v t, k, a, hm => by
    rcases List.mem_cons.mp hm with he | hm2
    · cases he
      simp [JVal.jsize, JFields.jsizeFs]
      omega
    · have := jsize_lt_of_mem_toPairs hm2
      simp [JVal.jsize, JFields.jsizeFs] at *
      omega

/-- `typeof v === "object"` in JavaScript: true for `null`, arrays and
objects, false for booleans, numbers, strings (and `undefined`). -/
def JVal.isObjType : JVal → Bool
  | .null => true
  | .arr _ => true
  | .obj _ => true
  | _ => false

/-- Strict equality `===` restricted to the cases the code reaches: at least
one operand is primitive or `null`, so reference equality of two distinct
objects never has to be decided.  Mixed-type comparisons are `false`, as
`===` performs no coercion. -/
def primEq : JVal → JVal → Bool
  | .null, .null => true
  | .bool a, .bool b => a == b
  | .num a, .num b => a == b
  | .str a, .str b => a == b
  | _, _ => false

/-- `Object.getOwnPropertyNames`: for an array, the canonical index strings
followed by `"length"`; for an object, its keys in insertion order; `[]`
for primitives (the code only reaches this for arrays and objects). -/
def ownProps : JVal → List String
  | .arr xs => (List.range xs.toList.length).map (fun i => toString i) ++ ["length"]
  | .obj fs => fs.toPairs.map (fun p => p.1)
  | _ => []

/-- Property lookup `v[s]`, returning `none` for JavaScript `undefined`.
Array lookup honours the canonical-numeric-string rule: `a["05"]` is
`undefined` even when `a[5]` exists. -/
def getProp : JVal → String → Option JVal
  | .arr xs, s =>
    if s = "length" then some (.num (Int.ofNat xs.toList.length))
    else
      match (List.range xs.toList.length).find? (fun i => toString i == s) with
      | some i => xs.toList[i]?
      | none => none
  | .obj fs, s => (fs.toPairs.find? (fun p => p.1 == s)).map (fun p => p.2)
  | _, _ => none

/-- Fuelled translation of `isEqual` (packages/lib/src/isEqual.ts).  The
source recurses on acyclic runtime values; the fuel only bounds recursion
depth and is always instantiated large enough (see `isEqual`).  Control
flow follows the source: the `null` short-circuit, the `typeof` check, the
both-arrays element loop (which on success falls through to the
own-property comparison, as in the source), and the own-property loop over
the first argument's property names. -/
def isEqualF : Nat → JVal → JVal → Bool
  | 0, _, _ => false
  | n+1, obj1, obj2 =>
    match obj1, obj2 with
    | .null, w => primEq .null w
    | v, .null => primEq v .null
    | v, w =>
      if !(v.isObjType && w.isObjType) then primEq v w
      else
        (match v, w with
          | .arr xs, .arr ys =>
            (xs.toList.length == ys.toList.length) &&
            ((xs.toList.zip ys.toList).all (fun p =>
              if p.1.isObjType && p.2.isObjType then isEqualF n p.1 p.2
              else primEq p.1 p.2))
          | _, _ => true) &&
        (((ownProps v).length == (ownProps w).length) &&
         ((ownProps v).all (fun k =>
           match getProp v k, getProp w k with
           | some a, some b =>
             if a.isObjType && b.isObjType then isEqualF n a b
             else primEq a b
           | none, none => true
           | _, _ => false)))

/-- `isEqual(obj1, obj2)`: the fuel `jsize obj1 + jsize obj2` strictly
dominates the recursion depth, which descends into both arguments at
once. -/
def isEqual (obj1 obj2 : JVal) : Bool :=
  isEqualF (obj1.jsize + obj2.jsize) obj1 obj2

/-- Comparison of two aligned array elements, as in the source's index loop. -/
def elemCmp (n : Nat) (p : JVal × JVal) : Bool :=
  if p.1.isObjType && p.2.isObjType then isEqualF n p.1 p.2 else primEq p.1 p.2

/-- Comparison of one own property across the two objects, as in the
source's property loop (`none` is JavaScript `undefined`). -/
def propCmp (n : Nat) (v w : JVal) (k : String) : Bool :=
  match getProp v k, getProp w k with
  | some a, some b =>
    if a.isObjType && b.isObjType then isEqualF n a b else primEq a b
  | none, none => true
  | _, _ => false

theorem isEqualF_null_left (n : Nat) (w : JVal) :
    isEqualF (n+1) .null w = primEq .null w := by
  cases w <;> rfl

theorem isEqualF_null_right (n : Nat) (v : JVal) :
    isEqualF (n+1) v .null = primEq v .null := by
  cases v <;> rfl

theorem isEqualF_not_obj (n : Nat) (v w : JVal)
    (h : (v.isObjType && w.isObjType) = false) :
    isEqualF (n+1) v w = primEq v w := by
  cases v <;> cases w <;> simp_all [JVal.isObjType] <;> rfl

theorem isEqualF_arr_arr (n : Nat) (xs ys : JList) :
    isEqualF (n+1) (.arr xs) (.arr ys) =
      (((xs.toList.length == ys.toList.length) &&
        (xs.toList.zip ys.toList).all (elemCmp n)) &&
       (((ownProps (.arr xs)).length == (ownProps (.arr ys)).length) &&
        (ownProps (.arr xs)).all (propCmp n (.arr xs) (.arr ys)))) := rfl

theorem isEqualF_obj_obj (n : Nat) (fs gs : JFields) :
    isEqualF (n+1) (.obj fs) (.obj gs) =
      (((ownProps (.obj fs)).length == (ownProps (.obj gs)).length) &&
       (ownProps (.obj fs)).all (propCmp n (.obj fs) (.obj gs))) := rfl

theorem isEqualF_arr_obj (n : Nat) (xs : JList) (gs : JFields) :
    isEqualF (n+1) (.arr xs) (.obj gs) =
      (((ownProps (.arr xs)).length == (ownProps (.obj gs)).length) &&
       (ownProps (.arr xs)).all (propCmp n (.arr xs) (.obj gs))) := rfl

theorem isEqualF_obj_arr (n : Nat) (fs : JFields) (ys : JList) :
    isEqualF (n+1) (.obj fs) (.arr ys) =
      (((ownProps (.obj fs)).length == (ownProps (.arr ys)).length) &&
       (ownProps (.obj fs)).all (propCmp n (.obj fs) (.arr ys))) := rfl

theorem primEq_refl (v : JVal) (h : v.isObjType = false) : primEq v v = true := by
  cases v <;> simp_all [primEq, JVal.isObjType]

theorem mem_zip_self {p : JVal × JVal} {xs : List JVal} (h : p ∈ xs.zip xs) :
    p.1 = p.2 ∧ p.1 ∈ xs := by
  induction xs with
  | nil => simp [List.zip] at h
  | cons x t ih =>
    rcases List.mem_cons.mp h with he | hm
    · rw [he]
      exact ⟨rfl, List.mem_cons_self x t⟩
    · rcases ih hm with ⟨h1, h2⟩
      exact ⟨h1, List.mem_cons_of_mem x h2⟩

theorem getProp_jsize {v a : JVal} {k : String} (h : getProp v k = some a)
    (ho : a.isObjType = true) : a.jsize < v.jsize := by
  cases v with
  | arr xs =>
    by_cases hk : k = "length"
    · rw [getProp, if_pos hk] at h
      cases h
      simp [JVal.isObjType] at ho
    · rw [getProp, if_neg hk] at h
      cases hfind : (List.range xs.toList.length).find? (fun i => toString i == k) with
      | none => rw [hfind] at h; cases h
      | some i =>
        rw [hfind] at h
        have hm : a ∈ xs.toList := List.getElem?_mem h
        exact jsize_lt_of_mem_toList hm
  | obj fs =>
    rw [getProp] at h
    cases hfind : fs.toPairs.find? (fun p => p.1 == k) with
    | none => rw [hfind] at h; cases h
    | some p =>
      rw [hfind] at h
      cases h
      have hm := List.mem_of_find?_eq_some hfind
      have : (p.1, p.2) ∈ fs.toPairs := by
        cases p; exact hm
      exact jsize_lt_of_mem_toPairs this
  | null => cases h
  | bool b => cases h
  | num i => cases h
  | str s => cases h

theorem propCmp_refl {n : Nat} {v : JVal} {k : String}
    (ih : ∀ a : JVal, a.jsize ≤ n → isEqualF n a a = true) :
    n + 1 ≥ v.jsize → propCmp n v v k = true := by
  intro hn
  rw [propCmp]
  cases hg : getProp v k with
  | none => simp
  | some a =>
    simp only
    by_cases hobj : a.isObjType = true
    · have hsz := getProp_jsize hg hobj
      rw [hobj]
      simp only [Bool.and_self, if_true]
      exact ih a (by omega)
    · simp only [Bool.not_eq_true] at hobj
      rw [hobj]
      simp only [Bool.false_and, Bool.false_eq_true, if_false]
      exact primEq_refl a hobj

/-- With fuel at least `jsize v`, comparing a value with itself returns
`true`: the reflexivity half of the contract that equality implies no
publish is needed. -/
theorem isEqualF_refl : ∀ n, ∀ v : JVal, v.jsize ≤ n → isEqualF n v v = true := by
  intro n
  induction n using Nat.strong_induction_on with
  | _ n ih =>
    intro v hv
    have h1 := JVal.one_le_jsize v
    obtain ⟨m, rfl⟩ : ∃ m, n = m + 1 := ⟨n - 1, by omega⟩
    have ihm : ∀ a : JVal, a.jsize ≤ m → isEqualF m a a = true := by
      intro a ha
      exact ih m (by omega) a ha
    cases v with
    | null => rfl
    | bool b => rw [isEqualF_not_obj _ _ _ (by rfl)]; simp [primEq]
    | num i => rw [isEqualF_not_obj _ _ _ (by rfl)]; simp [primEq]
    | str s => rw [isEqualF_not_obj _ _ _ (by rfl)]; simp [primEq]
    | arr xs =>
      rw [isEqualF_arr_arr]
      simp only [Bool.and_eq_true, beq_self_eq_true, true_and]
      refine ⟨?_, ?_⟩
      · rw [List.all_eq_true]
        intro p hp
        rcases mem_zip_self hp with ⟨hpe, hpm⟩
        have hsz := jsize_lt_of_mem_toList hpm
        rw [elemCmp, ← hpe]
        by_cases hobj : p.1.isObjType = true
        · rw [hobj]
          simp only [Bool.and_self, if_true]
          exact ihm p.1 (by omega)
        · simp only [Bool.not_eq_true] at hobj
          rw [hobj]
          simp only [Bool.false_and, Bool.false_eq_true, if_false]
          exact primEq_refl p.1 hobj
      · rw [List.all_eq_true]
        intro k _
        exact propCmp_refl ihm hv
    | obj fs =>
      rw [isEqualF_obj_obj]
      simp only [Bool.and_eq_true, beq_self_eq_true, true_and]
      rw [List.all_eq_true]
      intro k _
      exact propCmp_refl ihm hv

/-- Reflexivity of the translated `isEqual`. -/
theorem isEqual_refl (v : JVal) : isEqual v v = true :=
  isEqualF_refl _ v (by have := JVal.one_le_jsize v; omega)

/-! ## Document trees (ADF) and `adfEqual`

`AdfEqual.ts` compares two ADF documents after deep-sorting every node's
`marks` array (`orderMarks`, which runs `sortDeep` — a recursive sort by the
`sort-any` total order — on each `marks` list).  A document node is
modelled as a type, an optional text payload, a list of marks and a list of
children; a mark is a type plus a string-valued attribute record.  The
`sort-any` dependency is modelled as sorting by a fixed injective total
order on marks; `sortDeep`'s recursion below a mark is the identity here
because mark attributes are flat strings. -/

/-- An ADF mark: annotation type plus attribute record (association list in
object-key order). -/
structure Mark where
  ty : String
  attrs : List (String × String)
deriving DecidableEq, Repr

mutual
/-- An ADF document node: node type, optional text, marks, children. -/
inductive Adf where
  | node (ty : String) (text : Option String) (marks : List Mark) (content : AdfList)
inductive AdfList where
  | nil
  | cons (hd : Adf) (tl : AdfList)
end

/-- Children of a node as an ordinary list. -/
def AdfList.toL : AdfList → List Adf
  | .nil => []
  | .cons h t => h :: t.toL

/-- Embed a mark as the runtime object `{type, attrs}` it is at runtime. -/
def embedMark (m : Mark) : JVal :=
  .objL [("type", .str m.ty),
         ("attrs", .objL (m.attrs.map (fun p => (p.1, JVal.str p.2))))]

mutual
/-- Embed a document node as the runtime object `{type, text?, marks,
content}` it is at runtime (the `text` key present only when the node has
text, as absent keys change the own-property list). -/
def embedAdf : Adf → JVal
  | .node ty tx ms cs =>
    JVal.objL
      (("type", JVal.str ty) ::
       ((match tx with | some s => [("text", JVal.str s)] | none => []) ++
        [("marks", JVal.arrL (ms.map embedMark)),
         ("content", JVal.arr (embedAdfList cs))]))
def embedAdfList : AdfList → JList
  | .nil => .nil
  | .cons h t => .cons (embedAdf h) (embedAdfList t)
end

/-- Code points of a string, the sort key used to model the `sort-any`
total order. -/
def strKey (s : String) : List Nat := s.data.map (fun c => c.val.toNat)

theorem strKey_inj {a b : String} (h : strKey a = strKey b) : a = b := by
  unfold strKey at h
  have hd : a.data = b.data := by
    refine List.map_injective_iff.mpr ?_ h
    intro x y hxy
    exact Char.ext (UInt32.ext hxy)
  exact String.ext hd

/-- Injective sort key of a mark: type code points followed by the
attribute records flattened in pairs. -/
def markKey (m : Mark) : List (List Nat) :=
  strKey m.ty :: (m.attrs.map (fun p => [strKey p.1, strKey p.2])).flatten

theorem attrs_flatten_inj : ∀ (l1 l2 : List (String × String)),
    (l1.map (fun p => [strKey p.1, strKey p.2])).flatten =
    (l2.map (fun p => [strKey p.1, strKey p.2])).flatten → l1 = l2
  | [], [], _ => rfl
  | [], (k, v) :: t, h => by simp at h
  | (k, v) :: t, [], h => by simp at h
  | (k1, v1) :: t1, (k2, v2) :: t2, h => by
    simp only [List.map_cons, List.flatten_cons, List.cons_append,
      List.nil_append, List.cons.injEq] at h
    rcases h with ⟨hk, hv, ht⟩
    rw [strKey_inj hk, strKey_inj hv, attrs_flatten_inj t1 t2 ht]

theorem markKey_inj {a b : Mark} (h : markKey a = markKey b) : a = b := by
  unfold markKey at h
  rcases List.cons.injEq .. ▸ h with ⟨h1, h2⟩
  cases a; cases b
  simp only [Mark.mk.injEq]
  exact ⟨strKey_inj h1, attrs_flatten_inj _ _ h2⟩

/-- The total order on marks modelling the `sort-any` comparator. -/
def markLe (a b : Mark) : Prop := markKey a ≤ markKey b

instance : DecidableRel markLe := fun a b =>
  inferInstanceAs (Decidable (markKey a ≤ markKey b))

instance : IsTotal Mark markLe := ⟨fun a b => le_total (markKey a) (markKey b)⟩

instance : IsTrans Mark markLe := ⟨fun _ _ _ h1 h2 => le_trans h1 h2⟩

instance : IsAntisymm Mark markLe :=
  ⟨fun _ _ h1 h2 => markKey_inj (le_antisymm h1 h2)⟩

/-- `sortDeep` restricted to a `marks` array: `sort-any` on the list of
marks (recursion below a mark is the identity on this mark shape). -/
def sortMarks (ms : List Mark) : List Mark := List.insertionSort markLe ms

theorem sortMarks_perm_inv {ms1 ms2 : List Mark} (h : ms1.Perm ms2) :
    sortMarks ms1 = sortMarks ms2 :=
  List.eq_of_perm_of_sorted
    ((List.perm_insertionSort markLe ms1).trans
      (h.trans (List.perm_insertionSort markLe ms2).symm))
    (List.sorted_insertionSort markLe ms1)
    (List.sorted_insertionSort markLe ms2)

mutual
/-- `orderMarks` (AdfEqual.ts): traverse the document and replace every
node's marks with their deep-sorted form. -/
def orderMarks : Adf → Adf
  | .node ty tx ms cs => .node ty tx (sortMarks ms) (orderMarksL cs)
def orderMarksL : AdfList → AdfList
  | .nil => .nil
  | .cons h t => .cons (orderMarks h) (orderMarksL t)
end

/-- `adfEqual(first, second)` (AdfEqual.ts): `isEqual` of the two documents
after `orderMarks`, compared as the runtime values they are. -/
def adfEqual (first second : Adf) : Bool :=
  isEqual (embedAdf (orderMarks first)) (embedAdf (orderMarks second))

/-- Strictly increasing key list: the canonical-attribute-order predicate. -/
def keysStrictSorted : List String → Bool
  | [] => true
  | [_] => true
  | a :: b :: t => (decide (strKey a < strKey b)) && keysStrictSorted (b :: t)

/-- A mark whose attribute keys are in canonical (strictly sorted) order. -/
def markCanon (m : Mark) : Bool := keysStrictSorted (m.attrs.map (fun p => p.1))

mutual
/-- A document all of whose marks have canonical attribute records. -/
def adfCanon : Adf → Bool
  | .node _ _ ms cs => ms.all markCanon && adfCanonL cs
def adfCanonL : AdfList → Bool
  | .nil => true
  | .cons h t => adfCanon h && adfCanonL t
end

mutual
/-- Erase every node's marks, leaving exactly the non-annotation content. -/
def eraseMarks : Adf → Adf
  | .node ty tx _ cs => .node ty tx [] (eraseMarksL cs)
def eraseMarksL : AdfList → AdfList
  | .nil => .nil
  | .cons h t => .cons (eraseMarks h) (eraseMarksL t)
end

mutual
/-- Structural equality up to reordering of each node's marks list. -/
inductive MarksPerm : Adf → Adf → Prop where
  | node : ∀ (ty : String) (tx : Option String) (ms1 ms2 : List Mark)
      (cs1 cs2 : AdfList), ms1.Perm ms2 → MarksPermL cs1 cs2 →
      MarksPerm (.node ty tx ms1 cs1) (.node ty tx ms2 cs2)
inductive MarksPermL : AdfList → AdfList → Prop where
  | nil : MarksPermL .nil .nil
  | cons : ∀ (h1 h2 : Adf) (t1 t2 : AdfList), MarksPerm h1 h2 →
      MarksPermL t1 t2 → MarksPermL (.cons h1 t1) (.cons h2 t2)
end

theorem embedAdf_isObjType (t : Adf) : (embedAdf t).isObjType = true := by
  cases t; rfl

theorem embedMark_isObjType (m : Mark) : (embedMark m).isObjType = true := rfl

theorem toList_embedAdfList : ∀ cs : AdfList,
    (embedAdfList cs).toList = cs.toL.map embedAdf
  | .nil => rfl
  | .cons h t => by
    simp [embedAdfList, JList.toList, AdfList.toL, toList_embedAdfList t]

theorem mem_zip_of_getElem? {α : Type} :
    ∀ {xs ys : List α} {j : Nat} {a b : α},
    xs[j]? = some a → ys[j]? = some b → (a, b) ∈ xs.zip ys := by
  intro xs
  induction xs with
  | nil => intro ys j a b ha; simp at ha
  | cons x xt ih =>
    intro ys j a b ha hb
    cases ys with
    | nil => simp at hb
    | cons y yt =>
      cases j with
      | zero =>
        simp at ha hb
        rw [← ha, ← hb]
        simp [List.zip]
      | succ j =>
        simp only [List.getElem?_cons_succ] at ha hb
        have := ih ha hb
        simp [List.zip] at this ⊢
        right
        exact this

/-- The both-arrays comparison in `isEqual` is equivalent to length
equality plus element-wise comparison: the fall-through own-property pass
over index keys and `"length"` repeats exactly the element loop. -/
theorem isEqualF_arr_iff (n : Nat) (xs ys : JList) :
    isEqualF (n+1) (.arr xs) (.arr ys) = true ↔
      (xs.toList.length = ys.toList.length ∧
       ∀ p ∈ xs.toList.zip ys.toList, elemCmp n p = true) := by
  rw [isEqualF_arr_arr]
  simp only [Bool.and_eq_true, beq_iff_eq, List.all_eq_true]
  constructor
  · rintro ⟨⟨hlen, helem⟩, -⟩
    exact ⟨hlen, helem⟩
  · rintro ⟨hlen, helem⟩
    refine ⟨⟨hlen, helem⟩, ?_, ?_⟩
    · simp [ownProps, hlen]
    · intro k hk
      rw [propCmp]
      by_cases hkl : k = "length"
      · subst hkl
        rw [getProp, if_pos rfl, getProp, if_pos rfl, hlen]
        simp [primEq, JVal.isObjType]
      · rw [getProp, if_neg hkl, getProp, if_neg hkl, hlen]
        cases hfind : (List.range ys.toList.length).find? (fun i => toString i == k) with
        | none => simp
        | some j =>
          have hj : j < ys.toList.length := by
            have := List.mem_of_find?_eq_some hfind
            simpa [List.mem_range] using this
          have hxj : xs.toList[j]? = some (xs.toList[j]) :=
            List.getElem?_eq_getElem (by omega)
          have hyj : ys.toList[j]? = some (ys.toList[j]) :=
            List.getElem?_eq_getElem hj
          have hmem : (xs.toList[j], ys.toList[j]) ∈ xs.toList.zip ys.toList :=
            mem_zip_of_getElem? hxj hyj
          simp only [hxj, hyj]
          simpa [elemCmp] using helem _ hmem

/-- The strict key order used by canonical attribute records. -/
def keyLt (a b : String) : Prop := strKey a < strKey b

instance : IsAntisymm String keyLt :=
  ⟨fun _ _ h1 h2 => absurd h2 (lt_asymm h1)⟩

theorem keysStrictSorted_pairwise : ∀ l : List String,
    keysStrictSorted l = true → l.Pairwise keyLt
  | [], _ => .nil
  | [a], _ => by simp
  | a :: b :: t, h => by
    rw [keysStrictSorted, Bool.and_eq_true, decide_eq_true_eq] at h
    have hrest := keysStrictSorted_pairwise (b :: t) h.2
    refine List.Pairwise.cons ?_ hrest
    intro x hx
    rcases List.mem_cons.mp hx with he | hm
    · rw [he]; exact h.1
    · have hb := (List.pairwise_cons.mp hrest).1 x hm
      exact lt_trans h.1 hb

theorem keysStrictSorted_nodup (l : List String) (h : keysStrictSorted l = true) :
    l.Nodup :=
  (keysStrictSorted_pairwise l h).imp (fun hlt he => absurd (he ▸ hlt) (lt_irrefl _))

theorem find?_eq_of_mem_nodup {α : Type} :
    ∀ (l : List (String × α)) (k : String) (v : α),
    (l.map Prod.fst).Nodup → (k, v) ∈ l →
    l.find? (fun p => p.1 == k) = some (k, v)
  | [], k, v, _, hm => by simp at hm
  | (k2, v2) :: t, k, v, hnd, hm => by
    rcases List.mem_cons.mp hm with he | hm2
    · cases he
      simp [List.find?]
    · have hnd2 : (k2 :: t.map Prod.fst).Nodup := by simpa using hnd
      rcases List.nodup_cons.mp hnd2 with ⟨hk2nin, hndt⟩
      have hk2 : k2 ≠ k := by
        intro he
        apply hk2nin
        rw [he]
        exact List.mem_map.mpr ⟨(k, v), hm2, rfl⟩
      rw [List.find?]
      simp only [show ((k2, v2).1 == k) = false by simpa using hk2]
      exact find?_eq_of_mem_nodup t k v hndt hm2

theorem assoc_ext {α : Type} :
    ∀ (l1 l2 : List (String × α)), l1.map Prod.fst = l2.map Prod.fst →
    (l1.map Prod.fst).Nodup →
    (∀ kv ∈ l1, l2.find? (fun p => p.1 == kv.1) = some kv) → l1 = l2
  | [], [], _, _, _ => rfl
  | [], (k2, v2) :: t2, hk, _, _ => by simp at hk
  | (k1, v1) :: t1, [], hk, _, _ => by simp at hk
  | (k1, v1) :: t1, (k2, v2) :: t2, hk, hnd, hf => by
    simp only [List.map_cons, List.cons.injEq] at hk
    rcases hk with ⟨hkeq, hktl⟩
    subst hkeq
    have hnd2 : (k1 :: t1.map Prod.fst).Nodup := by simpa using hnd
    rcases List.nodup_cons.mp hnd2 with ⟨hk1nin, hndt⟩
    have hhead := hf (k1, v1) (List.mem_cons_self _ _)
    rw [List.find?] at hhead
    simp only [beq_self_eq_true] at hhead
    cases hhead
    refine congrArg _ (assoc_ext t1 t2 hktl hndt ?_)
    intro kv hkv
    have hne : kv.1 ≠ k1 := by
      intro he
      apply hk1nin
      rw [← he]
      exact List.mem_map.mpr ⟨kv, hkv, rfl⟩
    have := hf kv (List.mem_cons_of_mem _ hkv)
    rw [List.find?] at this
    simpa only [show ((k1, v1).1 == kv.1) = false by simpa using (Ne.symm hne)] using this

theorem ownProps_objL (fs : List (String × JVal)) :
    ownProps (JVal.objL fs) = fs.map Prod.fst := by
  simp [ownProps, JVal.objL, JFields.toPairs_ofL]

theorem getProp_objL (fs : List (String × JVal)) (k : String) :
    getProp (JVal.objL fs) k = (fs.find? (fun p => p.1 == k)).map (fun p => p.2) := by
  simp [getProp, JVal.objL, JFields.toPairs_ofL]

theorem isEqualF_objL_objL (n : Nat) (fs gs : List (String × JVal)) :
    isEqualF (n+1) (JVal.objL fs) (JVal.objL gs) =
      (((ownProps (JVal.objL fs)).length == (ownProps (JVal.objL gs)).length) &&
       (ownProps (JVal.objL fs)).all (propCmp n (JVal.objL fs) (JVal.objL gs))) :=
  isEqualF_obj_obj n (JFields.ofL fs) (JFields.ofL gs)

/-- Two canonical (strictly-sorted-key) string-attribute records compare
equal under `isEqual` exactly when they are equal: string values need no
recursion, so one unit of fuel suffices. -/
theorem attrsObj_iff (l1 l2 : List (String × String)) (n : Nat)
    (h1 : keysStrictSorted (l1.map Prod.fst) = true)
    (h2 : keysStrictSorted (l2.map Prod.fst) = true) :
    (isEqualF (n+1) (JVal.objL (l1.map (fun p => (p.1, JVal.str p.2))))
       (JVal.objL (l2.map (fun p => (p.1, JVal.str p.2)))) = true ↔ l1 = l2) := by
  have hmapkeys : ∀ l : List (String × String),
      ((l.map (fun p => (p.1, JVal.str p.2))).map Prod.fst) = l.map Prod.fst := by
    intro l
    rw [List.map_map]
    rfl
  have hget : ∀ (l : List (String × String)) (k : String),
      getProp (JVal.objL (l.map (fun p => (p.1, JVal.str p.2)))) k =
      (l.find? (fun p => p.1 == k)).map (fun p => JVal.str p.2) := by
    intro l k
    rw [getProp_objL, List.find?_map]
    · rw [Option.map_map]
      rfl
  rw [isEqualF_objL_objL, Bool.and_eq_true, beq_iff_eq]
  rw [ownProps_objL, ownProps_objL, hmapkeys, hmapkeys]
  simp only [List.all_eq_true, List.length_map]
  constructor
  · rintro ⟨hlen, hall⟩
    have hnd1 := keysStrictSorted_nodup _ h1
    have hnd2 := keysStrictSorted_nodup _ h2
    have hsub : (l1.map Prod.fst) ⊆ (l2.map Prod.fst) := by
      intro k hk
      have hp := hall k hk
      rw [propCmp, hget, hget] at hp
      cases hf1 : l1.find? (fun p => p.1 == k) with
      | none =>
        rw [hf1] at hp
        cases hf2 : l2.find? (fun p => p.1 == k) with
        | none =>
          rcases List.mem_map.mp hk with ⟨q, hq, hq1⟩
          have : (l1.find? (fun p => p.1 == k)).isSome :=
            List.find?_isSome.mpr ⟨q, hq, by simp [hq1]⟩
          rw [hf1] at this
          simp at this
        | some q2 => rw [hf2] at hp; simp at hp
      | some q1 =>
        rw [hf1] at hp
        cases hf2 : l2.find? (fun p => p.1 == k) with
        | none => rw [hf2] at hp; simp at hp
        | some q2 =>
          have hq2 := List.find?_some hf2
          have hq2m := List.mem_of_find?_eq_some hf2
          simp only [beq_iff_eq] at hq2
          exact List.mem_map.mpr ⟨q2, hq2m, hq2⟩
    have hperm : (l1.map Prod.fst).Perm (l2.map Prod.fst) :=
      (List.subperm_of_subset hnd1 hsub).perm_of_length_le (by simp [hlen])
    have hkeys : l1.map Prod.fst = l2.map Prod.fst :=
      List.eq_of_perm_of_sorted hperm (keysStrictSorted_pairwise _ h1)
        (keysStrictSorted_pairwise _ h2)
    refine assoc_ext l1 l2 hkeys hnd1 ?_
    intro kv hkv
    have hk : kv.1 ∈ l1.map Prod.fst := List.mem_map.mpr ⟨kv, hkv, rfl⟩
    have hp := hall kv.1 hk
    rw [propCmp, hget, hget] at hp
    have hf1 : l1.find? (fun p => p.1 == kv.1) = some kv := by
      have := find?_eq_of_mem_nodup l1 kv.1 kv.2 hnd1 (by simpa using hkv)
      simpa using this
    rw [hf1] at hp
    cases hf2 : l2.find? (fun p => p.1 == kv.1) with
    | none => rw [hf2] at hp; simp at hp
    | some q2 =>
      rw [hf2] at hp
      simp [primEq, JVal.isObjType] at hp
      have hq2k := List.find?_some hf2
      simp only [beq_iff_eq] at hq2k
      have hq : q2 = kv := by
        cases q2
        cases kv
        simp_all
      rw [hq]
  · rintro rfl
    refine ⟨rfl, ?_⟩
    intro k hk
    rw [propCmp]
    simp only [hget]
    rcases List.mem_map.mp hk with ⟨q, hq, hq1⟩
    have hsome : (l1.find? (fun p => p.1 == k)).isSome :=
      List.find?_isSome.mpr ⟨q, hq, by simp [hq1]⟩
    cases hf : l1.find? (fun p => p.1 == k) with
    | none => rw [hf] at hsome; simp at hsome
    | some q1 => simp [hf, primEq, JVal.isObjType]

theorem isEqualF_arrL_iff (n : Nat) (xs ys : List JVal) :
    isEqualF (n+1) (JVal.arrL xs) (JVal.arrL ys) = true ↔
      (xs.length = ys.length ∧ ∀ p ∈ xs.zip ys, elemCmp n p = true) := by
  have h := isEqualF_arr_iff n (JList.ofL xs) (JList.ofL ys)
  simpa [JVal.arrL, JList.toList_ofL] using h

/-- Two embedded canonical marks compare equal under `isEqual` exactly when
they are equal. -/
theorem markIso (a b : Mark) (n : Nat) (hc1 : markCanon a = true)
    (hc2 : markCanon b = true) (hb : (embedMark a).jsize < n) :
    (isEqualF n (embedMark a) (embedMark b) = true ↔ a = b) := by
  have hsz : (embedMark a).jsize =
      3 + 1 + (JVal.objL (a.attrs.map (fun p => (p.1, JVal.str p.2)))).jsize := by
    simp [embedMark, JVal.objL, JFields.ofL, JVal.jsize, JFields.jsizeFs]
    omega
  obtain ⟨m, rfl⟩ : ∃ m, n = m + 1 := ⟨n - 1, by omega⟩
  obtain ⟨i, rfl⟩ : ∃ i, m = i + 1 := by
    refine ⟨m - 1, ?_⟩
    have := JVal.one_le_jsize (JVal.objL (a.attrs.map (fun p => (p.1, JVal.str p.2))))
    omega
  rw [embedMark, embedMark, isEqualF_objL_objL, Bool.and_eq_true, beq_iff_eq]
  rw [ownProps_objL, ownProps_objL]
  simp only [List.map_cons, List.map_nil, List.all_cons, List.all_nil,
    Bool.and_eq_true, Bool.and_true]
  have hget1 : ∀ v1 v2 : JVal, propCmp (i+1)
      (JVal.objL [("type", v1), ("attrs", v2)])
      (JVal.objL [("type", JVal.str b.ty),
        ("attrs", JVal.objL (b.attrs.map (fun p => (p.1, JVal.str p.2))))]) "type" =
      (if (v1.isObjType && (JVal.str b.ty).isObjType) = true
       then isEqualF (i+1) v1 (JVal.str b.ty) else primEq v1 (JVal.str b.ty)) := by
    intro v1 v2
    rw [propCmp, getProp_objL, getProp_objL]
    simp [List.find?]
  have hget2 : ∀ v1 v2 w1 w2 : JVal, propCmp (i+1)
      (JVal.objL [("type", v1), ("attrs", v2)])
      (JVal.objL [("type", w1), ("attrs", w2)]) "attrs" =
      (if (v2.isObjType && w2.isObjType) = true
       then isEqualF (i+1) v2 w2 else primEq v2 w2) := by
    intro v1 v2 w1 w2
    rw [propCmp, getProp_objL, getProp_objL]
    simp [List.find?]
  rw [hget1, hget2]
  have hattrs := attrsObj_iff a.attrs b.attrs i
    (by rw [markCanon] at hc1; exact hc1) (by rw [markCanon] at hc2; exact hc2)
  simp only [JVal.objL, JVal.isObjType, Bool.false_and, Bool.false_eq_true,
    if_false, Bool.and_self, if_true, primEq, beq_iff_eq] at hattrs ⊢
  rw [hattrs]
  constructor
  · intro h
    cases a; cases b
    simp_all
  · rintro rfl
    simp

/-- Two embedded lists of canonical marks compare equal under `isEqual`
exactly when they are equal as lists. -/
theorem marksArr_iff : ∀ (ms1 ms2 : List Mark) (n : Nat),
    ms1.all markCanon = true → ms2.all markCanon = true →
    (JVal.arrL (ms1.map embedMark)).jsize < n →
    (isEqualF n (JVal.arrL (ms1.map embedMark))
      (JVal.arrL (ms2.map embedMark)) = true ↔ ms1 = ms2)
  | ms1, ms2, n, hc1, hc2, hb => by
    obtain ⟨m, rfl⟩ : ∃ m, n = m + 1 := by
      refine ⟨n - 1, ?_⟩
      have := JVal.one_le_jsize (JVal.arrL (ms1.map embedMark))
      omega
    rw [isEqualF_arrL_iff]
    match ms1, ms2 with
    | [], [] => simp
    | [], b :: t2 => simp
    | a :: t1, [] => simp
    | a :: t1, b :: t2 =>
      have hsz : (JVal.arrL ((a :: t1).map embedMark)).jsize =
          1 + 1 + (embedMark a).jsize + (JVal.arrL (t1.map embedMark)).jsize - 1 := by
        simp [JVal.arrL, JList.ofL, JVal.jsize, JList.jsizeL]
        omega
      simp only [List.all_cons, Bool.and_eq_true] at hc1 hc2
      have hbt : (JVal.arrL (t1.map embedMark)).jsize < m + 1 := by
        have := JVal.one_le_jsize (embedMark a)
        omega
      have hba : (embedMark a).jsize < m := by
        have h1 := JVal.one_le_jsize (JVal.arrL (t1.map embedMark))
        omega
      have hrec := marksArr_iff t1 t2 (m+1) hc1.2 hc2.2 hbt
      rw [isEqualF_arrL_iff] at hrec
      have hhead := markIso a b m hc1.1 hc2.1 hba
      simp only [List.map_cons, List.length_cons, List.zip_cons_cons,
        List.forall_mem_cons, List.cons.injEq]
      constructor
      · rintro ⟨hlen, hheadCmp, htail⟩
        refine ⟨?_, ?_⟩
        · rw [← hhead]
          have : elemCmp m (embedMark a, embedMark b) = true := hheadCmp
          rw [elemCmp] at this
          simpa [embedMark_isObjType] using this
        · rw [← hrec]
          simp only [List.length_map] at hlen ⊢
          exact ⟨by omega, htail⟩
      · rintro ⟨rfl, rfl⟩
        have htl := hrec.mpr rfl
        refine ⟨by simp, ?_, htl.2⟩
        rw [elemCmp]
        simpa [embedMark_isObjType] using hhead.mpr rfl

theorem isObjType_arrL (xs : List JVal) : (JVal.arrL xs).isObjType = true := rfl

theorem isObjType_arr (xs : JList) : (JVal.arr xs).isObjType = true := rfl

theorem isObjType_str (s : String) : (JVal.str s).isObjType = false := rfl

theorem jsize_obj (fs : JFields) : (JVal.obj fs).jsize = 1 + fs.jsizeFs := rfl

theorem jsize_arr_eq (xs : JList) : (JVal.arr xs).jsize = 1 + xs.jsizeL := rfl

theorem jsize_str (s : String) : (JVal.str s).jsize = 1 := rfl

theorem jsizeFs_fcons (k : String) (v : JVal) (t : JFields) :
    (JFields.fcons k v t).jsizeFs = 1 + v.jsize + t.jsizeFs := rfl

theorem jsizeFs_nil : JFields.nil.jsizeFs = 0 := rfl

theorem jsizeL_cons (h : JVal) (t : JList) :
    (JList.cons h t).jsizeL = 1 + h.jsize + t.jsizeL := rfl

theorem jsizeL_nil : JList.nil.jsizeL = 0 := rfl

theorem embedAdfList_cons (h : Adf) (t : AdfList) :
    embedAdfList (.cons h t) = .cons (embedAdf h) (embedAdfList t) := rfl

mutual
/-- Two embedded canonical documents compare equal under `isEqual` exactly
when they are equal: `isEqual` on embedded documents is injective
structural equality. -/
theorem adfIso : ∀ (t1 t2 : Adf) (n : Nat), adfCanon t1 = true →
    adfCanon t2 = true → (embedAdf t1).jsize < n →
    (isEqualF n (embedAdf t1) (embedAdf t2) = true ↔ t1 = t2)
  | .node ty1 tx1 ms1 cs1, .node ty2 tx2 ms2 cs2, n, hc1, hc2, hb => by
    obtain ⟨m, rfl⟩ : ∃ m, n = m + 1 := by
      refine ⟨n - 1, ?_⟩
      have := JVal.one_le_jsize (embedAdf (.node ty1 tx1 ms1 cs1))
      omega
    simp only [adfCanon, Bool.and_eq_true] at hc1 hc2
    simp only [embedAdf] at hb ⊢
    cases tx1 with
    | none =>
      cases tx2 with
      | none =>
        simp only [List.nil_append] at hb ⊢
        simp only [JVal.objL, JFields.ofL, jsize_obj, jsizeFs_fcons,
          jsizeFs_nil, jsize_str] at hb
        have hA1 : (JVal.arrL (ms1.map embedMark)).jsize < m := by
          have h2 := JVal.one_le_jsize (JVal.arr (embedAdfList cs1))
          omega
        have hB1 : (JVal.arr (embedAdfList cs1)).jsize < m := by
          have h2 := JVal.one_le_jsize (JVal.arrL (ms1.map embedMark))
          omega
        have hM := marksArr_iff ms1 ms2 m hc1.1 hc2.1 hA1
        have hC := adfIsoL cs1 cs2 m hc1.2 hc2.2 hB1
        rw [isEqualF_objL_objL, Bool.and_eq_true, beq_iff_eq,
          ownProps_objL, ownProps_objL]
        simp only [List.map_cons, List.map_nil, List.length_cons,
          List.length_nil, List.all_cons, List.all_nil, Bool.and_true,
          Bool.and_eq_true]
        simp [propCmp, getProp_objL, List.find?, isObjType_arrL,
          isObjType_arr, isObjType_str, primEq, hM, hC, Adf.node.injEq]
      | some s2 =>
        rw [isEqualF_objL_objL]
        simp [ownProps_objL]
    | some s1 =>
      cases tx2 with
      | none =>
        rw [isEqualF_objL_objL]
        simp [ownProps_objL]
      | some s2 =>
        simp only [List.cons_append, List.nil_append] at hb ⊢
        simp only [JVal.objL, JFields.ofL, jsize_obj, jsizeFs_fcons,
          jsizeFs_nil, jsize_str] at hb
        have hA1 : (JVal.arrL (ms1.map embedMark)).jsize < m := by
          have h2 := JVal.one_le_jsize (JVal.arr (embedAdfList cs1))
          omega
        have hB1 : (JVal.arr (embedAdfList cs1)).jsize < m := by
          have h2 := JVal.one_le_jsize (JVal.arrL (ms1.map embedMark))
          omega
        have hM := marksArr_iff ms1 ms2 m hc1.1 hc2.1 hA1
        have hC := adfIsoL cs1 cs2 m hc1.2 hc2.2 hB1
        rw [isEqualF_objL_objL, Bool.and_eq_true, beq_iff_eq,
          ownProps_objL, ownProps_objL]
        simp only [List.map_cons, List.map_nil, List.length_cons,
          List.length_nil, List.all_cons, List.all_nil, Bool.and_true,
          Bool.and_eq_true]
        simp [propCmp, getProp_objL, List.find?, isObjType_arrL,
          isObjType_arr, isObjType_str, primEq, hM, hC, Adf.node.injEq]
theorem adfIsoL : ∀ (cs1 cs2 : AdfList) (n : Nat), adfCanonL cs1 = true →
    adfCanonL cs2 = true → (JVal.arr (embedAdfList cs1)).jsize < n →
    (isEqualF n (.arr (embedAdfList cs1)) (.arr (embedAdfList cs2)) = true ↔
      cs1 = cs2)
  | cs1, cs2, n, hc1, hc2, hb => by
    obtain ⟨m, rfl⟩ : ∃ m, n = m + 1 := by
      refine ⟨n - 1, ?_⟩
      have := JVal.one_le_jsize (JVal.arr (embedAdfList cs1))
      omega
    rw [isEqualF_arr_iff]
    simp only [toList_embedAdfList]
    match cs1, cs2 with
    | .nil, .nil => simp [AdfList.toL]
    | .nil, .cons h2 t2 => simp [AdfList.toL]
    | .cons h1 t1, .nil => simp [AdfList.toL]
    | .cons h1 t1, .cons h2 t2 =>
      simp only [adfCanonL, Bool.and_eq_true] at hc1 hc2
      simp only [embedAdfList_cons, jsize_arr_eq, jsizeL_cons] at hb
      have hbh : (embedAdf h1).jsize < m := by
        omega
      have hbt : (JVal.arr (embedAdfList t1)).jsize < m + 1 := by
        rw [jsize_arr_eq]
        have h2 := JVal.one_le_jsize (embedAdf h1)
        omega
      have hrec := adfIsoL t1 t2 (m+1) hc1.2 hc2.2 hbt
      rw [isEqualF_arr_iff] at hrec
      simp only [toList_embedAdfList] at hrec
      have hhead := adfIso h1 h2 m hc1.1 hc2.1 hbh
      simp only [AdfList.toL, List.map_cons, List.length_cons,
        List.zip_cons_cons, List.forall_mem_cons, AdfList.cons.injEq]
      constructor
      · rintro ⟨hlen, hheadCmp, htail⟩
        refine ⟨?_, ?_⟩
        · rw [← hhead]
          have hcmp : elemCmp m (embedAdf h1, embedAdf h2) = true := hheadCmp
          rw [elemCmp] at hcmp
          simpa [embedAdf_isObjType] using hcmp
        · rw [← hrec]
          exact ⟨by omega, htail⟩
      · rintro ⟨rfl, rfl⟩
        have htl := hrec.mpr rfl
        refine ⟨by omega, ?_, htl.2⟩
        rw [elemCmp]
        simpa [embedAdf_isObjType] using hhead.mpr rfl
end

mutual
theorem orderMarks_of_marksPerm : ∀ {t1 t2 : Adf}, MarksPerm t1 t2 →
    orderMarks t1 = orderMarks t2
  | _, _, .node ty tx ms1 ms2 cs1 cs2 hperm hl => by
    simp only [orderMarks]
    rw [sortMarks_perm_inv hperm, orderMarksL_of_marksPermL hl]
theorem orderMarksL_of_marksPermL : ∀ {cs1 cs2 : AdfList}, MarksPermL cs1 cs2 →
    orderMarksL cs1 = orderMarksL cs2
  | _, _, .nil => rfl
  | _, _, .cons h1 h2 t1 t2 hh ht => by
    simp only [orderMarksL]
    rw [orderMarks_of_marksPerm hh, orderMarksL_of_marksPermL ht]
end

mutual
theorem eraseMarks_orderMarks : ∀ t : Adf, eraseMarks (orderMarks t) = eraseMarks t
  | .node ty tx ms cs => by
    simp only [orderMarks, eraseMarks, eraseMarksL_orderMarksL cs]
theorem eraseMarksL_orderMarksL : ∀ cs : AdfList,
    eraseMarksL (orderMarksL cs) = eraseMarksL cs
  | .nil => rfl
  | .cons h t => by
    simp only [orderMarksL, eraseMarksL, eraseMarks_orderMarks h,
      eraseMarksL_orderMarksL t]
end

mutual
theorem adfCanon_orderMarks : ∀ t : Adf, adfCanon t = true →
    adfCanon (orderMarks t) = true
  | .node ty tx ms cs, h => by
    simp only [orderMarks, adfCanon, Bool.and_eq_true] at h ⊢
    constructor
    · rw [List.all_eq_true]
      intro x hx
      have hmem : x ∈ ms := by
        rw [sortMarks] at hx
        exact (List.perm_insertionSort markLe ms).subset hx
      exact List.all_eq_true.mp h.1 x hmem
    · exact adfCanonL_orderMarksL cs h.2
theorem adfCanonL_orderMarksL : ∀ cs : AdfList, adfCanonL cs = true →
    adfCanonL (orderMarksL cs) = true
  | .nil, _ => rfl
  | .cons h t, hc => by
    simp only [orderMarksL, adfCanonL, Bool.and_eq_true] at hc ⊢
    exact ⟨adfCanon_orderMarks h hc.1, adfCanonL_orderMarksL t hc.2⟩
end

/-- On canonical documents, `adfEqual` holds exactly when the mark-sorted
forms coincide. -/
theorem adfEqual_iff_orderMarks_eq (t1 t2 : Adf) (h1 : adfCanon t1 = true)
    (h2 : adfCanon t2 = true) :
    (adfEqual t1 t2 = true ↔ orderMarks t1 = orderMarks t2) := by
  rw [adfEqual, isEqual]
  refine adfIso (orderMarks t1) (orderMarks t2) _
    (adfCanon_orderMarks t1 h1) (adfCanon_orderMarks t2 h2) ?_
  have := JVal.one_le_jsize (embedAdf (orderMarks t2))
  omega

/-- C6: for every pair of document trees (with canonical attribute
records) that are structurally equal except for the order of entries in
any node's marks arrays, `adfEqual` returns true; and for every pair
differing in any node's non-annotation content (their mark-erased forms
differ), `adfEqual` returns false. -/
theorem C6_adfEqual_mark_order_insensitive (t1 t2 : Adf)
    (h1 : adfCanon t1 = true) (h2 : adfCanon t2 = true) :
    (MarksPerm t1 t2 → adfEqual t1 t2 = true) ∧
    (eraseMarks t1 ≠ eraseMarks t2 → adfEqual t1 t2 = false) := by
  constructor
  · intro hp
    exact (adfEqual_iff_orderMarks_eq t1 t2 h1 h2).mpr (orderMarks_of_marksPerm hp)
  · intro hne
    cases he : adfEqual t1 t2 with
    | false => rfl
    | true =>
      exfalso
      apply hne
      have hom := (adfEqual_iff_orderMarks_eq t1 t2 h1 h2).mp he
      calc eraseMarks t1 = eraseMarks (orderMarks t1) :=
            (eraseMarks_orderMarks t1).symm
        _ = eraseMarks (orderMarks t2) := by rw [hom]
        _ = eraseMarks t2 := eraseMarks_orderMarks t2

/-- Witness for C6: two one-node documents with the same two marks in
opposite orders compare equal under `adfEqual`. -/
theorem C6_adfEqual_mark_order_insensitive_witness :
    adfEqual
      (Adf.node "text" (some "hi") [Mark.mk "em" [], Mark.mk "strong" []] .nil)
      (Adf.node "text" (some "hi") [Mark.mk "strong" [], Mark.mk "em" []] .nil) =
      true :=
  (C6_adfEqual_mark_order_insensitive _ _ (by decide) (by decide)).1
    (MarksPerm.node _ _ _ _ _ _ (by decide) MarksPermL.nil)

/-- C9: `isEqual` cannot distinguish an array from a non-array plain object
that mimics the array's own properties — `[1]` compares equal to
`{"0": 1, "length": 1}` even though one is an array and the other is not. -/
theorem C9_isEqual_array_object_mimicry :
    isEqual (JVal.arrL [JVal.num 1])
      (JVal.objL [("0", JVal.num 1), ("length", JVal.num 1)]) = true ∧
    JVal.arrL [JVal.num 1] ≠ JVal.objL [("0", JVal.num 1), ("length", JVal.num 1)] := by
  constructor
  · decide
  · intro h
    simp [JVal.arrL, JVal.objL] at h

/-! ## `Publisher.updatePageContent`

The per-unit diff/update step of `Publisher` (Publisher.ts).  The function
is translated as a pure function of its inputs plus the responses the
remote system would give (current labels), returning the outcome together
with the ordered list of remote calls issued.  The ADF processing pipeline
(`executeADFProcessingPipeline`) is a parameter producing the processed
body and the attachment calls it makes — the support functions handed to
plugins (`createPublisherFunctions`) expose only attachment upload, so a
pipeline can issue no other remote call. -/

/-- A `"same" | "updated"` result dimension. -/
inductive SU where
  | same
  | updated
deriving DecidableEq, Repr

/-- `UploadAdfFileResult` without the echoed file. -/
structure UploadAdfFileResult where
  contentResult : SU
  imageResult : SU
  labelResult : SU
deriving DecidableEq, Repr

/-- The fields of `ConfluenceAdfFile` that `updatePageContent` reads. -/
structure ConfluenceAdfFileM where
  pageId : String
  pageTitle : String
  contentType : String
  dontChangeParentPageId : Bool
  tags : List String
  contents : Adf

/-- Snapshot of the existing remote page (`ConfluencePageExistingData`);
ancestors are kept as their id strings. -/
structure ConfluencePageExistingDataM where
  adfContent : Adf
  pageTitle : String
  ancestors : List String
  contentType : String

/-- One entry of the remote `getLabelsForContent` response. -/
structure LabelM where
  label : String
  name : String

/-- An attachment call a pipeline plugin can issue through its support
functions (`createOrUpdateAttachments`). -/
inductive AttCall where
  | createOrUpdateAttachments (pageId : String) (filename : String) (comment : String)
deriving DecidableEq, Repr

/-- A remote call issued by `updatePageContent` (or its pipeline). -/
inductive NetCall where
  | getAttachments (pageId : String)
  | createAttachment (pageId : String) (filename : String) (comment : String)
  | updateContent (id : String) (version : Nat) (details : JVal) (body : Adf)
  | getLabels (pageId : String)
  | removeLabel (pageId : String) (name : String)
  | addLabels (pageId : String) (labels : List (String × String))

/-- Whether a call writes to the remote system. -/
def NetCall.isWrite : NetCall → Bool
  | .getAttachments _ => false
  | .getLabels _ => false
  | _ => true

/-- Whether a call is a content update (`content.updateContent`). -/
def NetCall.isUpdateContent : NetCall → Bool
  | .updateContent _ _ _ _ => true
  | _ => false

/-- Lift a pipeline attachment call into the trace. -/
def AttCall.toNet : AttCall → NetCall
  | .createOrUpdateAttachments p f c => .createAttachment p f c

/-- The `{title, type, ...(ancestors?)}` page-details object built twice in
`updatePageContent` (spread order: title, type, then optional ancestors,
each ancestor as an `{id}` object). -/
def pageDetails (title ty : String) (anc : Option (List String)) : JVal :=
  JVal.objL ([("title", JVal.str title), ("type", JVal.str ty)] ++
    (match anc with
     | some xs =>
       [("ancestors", JVal.arrL (xs.map (fun i => JVal.objL [("id", JVal.str i)])))]
     | none => []))

/-- The identity-conflict message thrown by `updatePageContent` (template
literals print an absent account id as `undefined`). -/
def identityConflictMsg (myAccountId : Option String) (lastUpdatedBy : String) :
    String :=
  "Page last updated by another user. Won\x27t publish over their changes. MyAccountId: " ++
    (match myAccountId with | some s => s | none => "undefined") ++
    ", Last Updated By: " ++ lastUpdatedBy

/-- The content-type-conversion message thrown by `updatePageContent`. -/
def typeConversionMsg (fromTy toTy : String) : String :=
  "Cannot convert between content types. From " ++ fromTy ++ " to " ++ toTy

/-- Translation of `Publisher.updatePageContent` (Publisher.ts).  Statement
order follows the source: identity check, content-type check,
`getAttachments`, pipeline run, the hard-coded `imageResult = "updated"`,
the combined body/metadata diff with a single versioned `updateContent`
call when either differs, then label reconciliation (one removal call per
stale remote label, one batched addition call when labels are missing). -/
def updatePageContent (myAccountId : Option String) (ancestors : List String)
    (pageVersionNumber : Nat) (existingPageData : ConfluencePageExistingDataM)
    (adfFile : ConfluenceAdfFileM) (lastUpdatedBy : String)
    (pipeline : Adf → Adf × List AttCall) (currentLabels : List LabelM) :
    Except String UploadAdfFileResult × List NetCall :=
  if (match myAccountId with
      | some a => lastUpdatedBy != a
      | none => true) then
    (.error (identityConflictMsg myAccountId lastUpdatedBy), [])
  else if existingPageData.contentType != adfFile.contentType then
    (.error (typeConversionMsg existingPageData.contentType adfFile.contentType), [])
  else
    let pipeRes := pipeline adfFile.contents
    let adfToUpload := pipeRes.1
    let imageResult := SU.updated
    let hideAncestors :=
      adfFile.contentType == "blogpost" || adfFile.dontChangeParentPageId
    let existingPageDetails := pageDetails existingPageData.pageTitle
      existingPageData.contentType
      (if hideAncestors then none else some existingPageData.ancestors)
    let newPageDetails := pageDetails adfFile.pageTitle adfFile.contentType
      (if hideAncestors then none else some ancestors)
    let contentChanged :=
      !(adfEqual existingPageData.adfContent adfToUpload) ||
      !(isEqual existingPageDetails newPageDetails)
    let contentCalls :=
      if contentChanged then
        [NetCall.updateContent adfFile.pageId (pageVersionNumber + 1)
          newPageDetails adfToUpload]
      else []
    let removedLabels :=
      currentLabels.filter (fun l => !(adfFile.tags.contains l.label))
    let removeCalls :=
      removedLabels.map (fun l => NetCall.removeLabel adfFile.pageId l.name)
    let labelsToAdd :=
      (adfFile.tags.filter
        (fun t => currentLabels.all (fun item => item.label != t))).map
        (fun t => ("global", t))
    let addCalls :=
      if labelsToAdd.length > 0 then [NetCall.addLabels adfFile.pageId labelsToAdd]
      else []
    (.ok { contentResult := if contentChanged then SU.updated else SU.same
           imageResult := imageResult
           labelResult :=
             if removedLabels.isEmpty && labelsToAdd.isEmpty then SU.same
             else SU.updated },
     NetCall.getAttachments adfFile.pageId :: pipeRes.2.map AttCall.toNet ++
       contentCalls ++ NetCall.getLabels adfFile.pageId :: removeCalls ++ addCalls)

/-- The `existingPageDetails` object `updatePageContent` builds. -/
def existingDetailsOf (epd : ConfluencePageExistingDataM)
    (f : ConfluenceAdfFileM) : JVal :=
  pageDetails epd.pageTitle epd.contentType
    (if f.contentType == "blogpost" || f.dontChangeParentPageId then none
     else some epd.ancestors)

/-- The `newPageDetails` object `updatePageContent` builds. -/
def newDetailsOf (f : ConfluenceAdfFileM) (ancestors : List String) : JVal :=
  pageDetails f.pageTitle f.contentType
    (if f.contentType == "blogpost" || f.dontChangeParentPageId then none
     else some ancestors)

/-- C1: a publish unit whose remote last-updated-by account id differs from
the Publisher's acting account id fails with the identity-conflict error,
and no remote call at all — in particular no `updateContent`, attachment
upload, or label call — is issued for that unit. -/
theorem C1_identity_conflict_blocks_all_calls (acc lastUpdatedBy : String)
    (ancestors : List String) (pageVersionNumber : Nat)
    (existingPageData : ConfluencePageExistingDataM)
    (adfFile : ConfluenceAdfFileM) (pipeline : Adf → Adf × List AttCall)
    (currentLabels : List LabelM) (hne : lastUpdatedBy ≠ acc) :
    updatePageContent (some acc) ancestors pageVersionNumber existingPageData
      adfFile lastUpdatedBy pipeline currentLabels =
    (.error (identityConflictMsg (some acc) lastUpdatedBy), []) := by
  rw [updatePageContent]
  simp [hne]

/-- Witness for C1 at a concrete unit. -/
theorem C1_identity_conflict_blocks_all_calls_witness :
    ("other" : String) ≠ "me" ∧
    updatePageContent (some "me") [] 1
      ⟨Adf.node "doc" none [] .nil, "T", [], "page"⟩
      ⟨"p1", "T", "page", false, [], Adf.node "doc" none [] .nil⟩
      "other" (fun a => (a, [])) [] =
    (.error (identityConflictMsg (some "me") "other"), []) :=
  ⟨by decide,
   C1_identity_conflict_blocks_all_calls "me" "other" [] 1 _ _ _ _ (by decide)⟩

theorem filter_isUpdateContent_toNet (l : List AttCall) :
    (l.map AttCall.toNet).filter NetCall.isUpdateContent = [] := by
  induction l with
  | nil => rfl
  | cons a t ih =>
    cases a
    simp [AttCall.toNet, NetCall.isUpdateContent, List.filter, ih]

theorem filter_isUpdateContent_removeCalls (pageId : String) (l : List LabelM) :
    ((l.map (fun lb => NetCall.removeLabel pageId lb.name)).filter
      NetCall.isUpdateContent) = [] := by
  induction l with
  | nil => rfl
  | cons a t ih => simp [NetCall.isUpdateContent, List.filter, ih]

/-- C4: when the processed body differs from the remote snapshot under
order-insensitive document equality, or the page details differ under
generic equality, `updatePageContent` issues exactly one `updateContent`
call, carrying both the body and the metadata, with version number equal
to the unit's remote version plus one — never two separate writes for body
and metadata. -/
theorem C4_single_versioned_update (acc : String) (ancestors : List String)
    (pageVersionNumber : Nat) (existingPageData : ConfluencePageExistingDataM)
    (adfFile : ConfluenceAdfFileM) (pipeline : Adf → Adf × List AttCall)
    (currentLabels : List LabelM)
    (hty : existingPageData.contentType = adfFile.contentType)
    (hch : adfEqual existingPageData.adfContent (pipeline adfFile.contents).1 = false ∨
      isEqual (existingDetailsOf existingPageData adfFile)
        (newDetailsOf adfFile ancestors) = false) :
    ((updatePageContent (some acc) ancestors pageVersionNumber existingPageData
        adfFile acc pipeline currentLabels).2.filter NetCall.isUpdateContent) =
    [NetCall.updateContent adfFile.pageId (pageVersionNumber + 1)
      (newDetailsOf adfFile ancestors) (pipeline adfFile.contents).1] := by
  rw [updatePageContent]
  have hcond :
      (!(adfEqual existingPageData.adfContent (pipeline adfFile.contents).1) ||
       !(isEqual (existingDetailsOf existingPageData adfFile)
          (newDetailsOf adfFile ancestors))) = true := by
    rcases hch with h | h <;> simp [h]
  have hbne : (existingPageData.contentType != adfFile.contentType) = false := by
    simp [hty]
  rw [existingDetailsOf, newDetailsOf] at hcond
  simp only [bne_self_eq_false, Bool.false_eq_true, if_false, hbne,
    hcond, if_true]
  rw [newDetailsOf]
  simp [apply_ite (List.filter NetCall.isUpdateContent),
    NetCall.isUpdateContent, List.filter_cons, List.filter_append,
    filter_isUpdateContent_toNet, filter_isUpdateContent_removeCalls]

/-- A publish unit with no local change and no remote drift produces a
`content: same, image: updated, label: same` report and issues only the two
reads (`getAttachments`, `getLabelsForContent`) — no write of any kind. -/
theorem updatePageContent_no_changes (acc : String) (ancestors : List String)
    (pageVersionNumber : Nat) (epd : ConfluencePageExistingDataM)
    (f : ConfluenceAdfFileM) (pipeline : Adf → Adf × List AttCall)
    (labels : List LabelM)
    (hty : epd.contentType = f.contentType)
    (hpipe : (pipeline f.contents).2 = [])
    (hadf : adfEqual epd.adfContent (pipeline f.contents).1 = true)
    (htitle : epd.pageTitle = f.pageTitle)
    (hanc : (f.contentType == "blogpost" || f.dontChangeParentPageId) = true ∨
      epd.ancestors = ancestors)
    (hlab1 : ∀ l ∈ labels, l.label ∈ f.tags)
    (hlab2 : ∀ t ∈ f.tags, ∃ l ∈ labels, l.label = t) :
    updatePageContent (some acc) ancestors pageVersionNumber epd f acc
      pipeline labels =
    (.ok ⟨SU.same, SU.updated, SU.same⟩,
     [NetCall.getAttachments f.pageId, NetCall.getLabels f.pageId]) := by
  rw [updatePageContent]
  have hbne : (epd.contentType != f.contentType) = false := by simp [hty]
  have hdet : pageDetails epd.pageTitle epd.contentType
      (if (f.contentType == "blogpost" || f.dontChangeParentPageId) = true
       then none else some epd.ancestors) =
      pageDetails f.pageTitle f.contentType
      (if (f.contentType == "blogpost" || f.dontChangeParentPageId) = true
       then none else some ancestors) := by
    rw [htitle, hty]
    rcases hanc with h | h
    · rw [if_pos h, if_pos h]
    · rw [h]
  have hcond : (!(adfEqual epd.adfContent (pipeline f.contents).1) ||
      !(isEqual (pageDetails epd.pageTitle epd.contentType
        (if (f.contentType == "blogpost" || f.dontChangeParentPageId) = true
         then none else some epd.ancestors))
        (pageDetails f.pageTitle f.contentType
        (if (f.contentType == "blogpost" || f.dontChangeParentPageId) = true
         then none else some ancestors)))) = false := by
    rw [hadf, hdet, isEqual_refl]
    rfl
  have hrem : labels.filter (fun l => !(f.tags.contains l.label)) = [] := by
    rw [List.filter_eq_nil_iff]
    intro l hl
    simp
    exact hlab1 l hl
  have hadd : f.tags.filter (fun t => labels.all (fun item => item.label != t)) =
      [] := by
    rw [List.filter_eq_nil_iff]
    intro t ht
    rcases hlab2 t ht with ⟨l, hl, he⟩
    intro hall
    rw [List.all_eq_true] at hall
    have := hall l hl
    simp [he] at this
  simp only [bne_self_eq_false, Bool.false_eq_true, if_false, hbne, hcond,
    hrem, hadd, hpipe, List.map_nil, List.filter_nil, List.nil_append,
    List.length_nil, List.isEmpty_nil, Bool.and_self, if_true,
    Nat.lt_irrefl, List.append_nil]
  rfl

/-- C3 (as the code behaves): in a run where every unit's processed body,
title, content type, ancestors and labels equal the remote snapshot and the
pipeline issues no call, every unit reports `content: same` and
`label: same` — but `image: updated`, which is hard-coded — and the run
issues zero update calls, performing only the two reads per unit. -/
theorem C3_no_change_run_reads_only (acc : String)
    (pipeline : Adf → Adf × List AttCall)
    (units : List (List String × Nat × ConfluencePageExistingDataM ×
      ConfluenceAdfFileM × List LabelM))
    (h : ∀ u ∈ units,
      u.2.2.1.contentType = u.2.2.2.1.contentType ∧
      (pipeline u.2.2.2.1.contents).2 = [] ∧
      adfEqual u.2.2.1.adfContent (pipeline u.2.2.2.1.contents).1 = true ∧
      u.2.2.1.pageTitle = u.2.2.2.1.pageTitle ∧
      ((u.2.2.2.1.contentType == "blogpost" ||
        u.2.2.2.1.dontChangeParentPageId) = true ∨
        u.2.2.1.ancestors = u.1) ∧
      (∀ l ∈ u.2.2.2.2, l.label ∈ u.2.2.2.1.tags) ∧
      (∀ t ∈ u.2.2.2.1.tags, ∃ l ∈ u.2.2.2.2, l.label = t)) :
    ∀ u ∈ units,
      updatePageContent (some acc) u.1 u.2.1 u.2.2.1 u.2.2.2.1 acc pipeline
        u.2.2.2.2 =
      (.ok ⟨SU.same, SU.updated, SU.same⟩,
       [NetCall.getAttachments u.2.2.2.1.pageId,
        NetCall.getLabels u.2.2.2.1.pageId]) := by
  intro u hu
  rcases h u hu with ⟨h1, h2, h3, h4, h5, h6, h7⟩
  exact updatePageContent_no_changes acc u.1 u.2.1 u.2.2.1 u.2.2.2.1 pipeline
    u.2.2.2.2 h1 h2 h3 h4 h5 h6 h7

/-- Witness for the amended C3 at a concrete no-change unit. -/
theorem C3_no_change_run_reads_only_witness :
    updatePageContent (some "me") ["root"] 3
      ⟨Adf.node "doc" none [] .nil, "T", ["root"], "page"⟩
      ⟨"p1", "T", "page", false, ["tag1"], Adf.node "doc" none [] .nil⟩
      "me" (fun a => (a, [])) [⟨"tag1", "tag1"⟩] =
    (.ok ⟨SU.same, SU.updated, SU.same⟩,
     [NetCall.getAttachments "p1", NetCall.getLabels "p1"]) :=
  C3_no_change_run_reads_only "me" (fun a => (a, []))
    [(["root"], 3, ⟨Adf.node "doc" none [] .nil, "T", ["root"], "page"⟩,
      ⟨"p1", "T", "page", false, ["tag1"], Adf.node "doc" none [] .nil⟩,
      [⟨"tag1", "tag1"⟩])]
    (by
      intro u hu
      rw [List.mem_singleton] at hu
      subst hu
      refine ⟨rfl, rfl, by decide, rfl, Or.inr rfl, ?_, ?_⟩
      · intro l hl
        rw [List.mem_singleton] at hl
        subst hl
        simp
      · intro t ht
        rw [List.mem_singleton] at ht
        subst ht
        exact ⟨⟨"tag1", "tag1"⟩, List.mem_singleton.mpr rfl, rfl⟩)
    (["root"], 3, ⟨Adf.node "doc" none [] .nil, "T", ["root"], "page"⟩,
      ⟨"p1", "T", "page", false, ["tag1"], Adf.node "doc" none [] .nil⟩,
      [⟨"tag1", "tag1"⟩])
    (List.mem_singleton.mpr rfl)

/-- Counterexample to C3 as stated: a unit with zero local changes and zero
remote drift (the body compares `adfEqual`-equal to the remote snapshot,
title/type/ancestors/labels all match) still reports `image: updated`
rather than `image: same` — the source hard-codes
`result.imageResult = "updated"`. -/
theorem C3_image_same_counterexample :
    adfEqual (Adf.node "doc" none [] .nil) (Adf.node "doc" none [] .nil) = true ∧
    (updatePageContent (some "me") ["root"] 3
      ⟨Adf.node "doc" none [] .nil, "T", ["root"], "page"⟩
      ⟨"p1", "T", "page", false, [], Adf.node "doc" none [] .nil⟩
      "me" (fun a => (a, [])) []).1 =
      .ok ⟨SU.same, SU.updated, SU.same⟩ ∧
    SU.updated ≠ SU.same := by
  refine ⟨by decide, rfl, by decide⟩

/-! ## Attachment dedup (Attachments.ts)

`uploadBuffer` and `uploadFile` hash the bytes with MD5 (the spark-md5
dependency, modelled as an explicit hash-function parameter) and skip the
network upload when the current-attachment index already carries the same
hash under the derived upload key.  `image-size` is modelled as a
dimension-function parameter, `decodeURI` as a string-function parameter,
and the adaptor's `readBinary` as a lookup function. -/

/-- One value of the `CurrentAttachments` record. -/
structure AttachmentInfo where
  filehash : String
  attachmentId : String
  collectionName : String
deriving DecidableEq, Repr

/-- `"existing" | "uploaded"`. -/
inductive ConfluenceImageStatus where
  | existing
  | uploaded
deriving DecidableEq, Repr

/-- `UploadedImageData` returned by both upload entry points. -/
structure UploadedImageData where
  filename : String
  id : String
  collection : String
  width : Nat
  height : Nat
  status : ConfluenceImageStatus
deriving DecidableEq, Repr

/-- `results[0]` of a `createOrUpdateAttachments` response. -/
structure AttachmentUploadResponse where
  fileId : String
  containerId : String
deriving DecidableEq, Repr

/-- `BinaryFile` read by the adaptor. -/
structure BinaryFile where
  filename : String
  filePath : String
  contents : List Nat
deriving DecidableEq, Repr

/-- Translation of `uploadBuffer` (Attachments.ts): hash the buffer, read
the image size, and if the current-attachment index holds the upload
filename with the same hash return its metadata with status `existing` and
no network call; otherwise issue one `createOrUpdateAttachments` call. -/
def uploadBuffer (pageId uploadFilename : String) (fileBuffer : List Nat)
    (currentAttachments : List (String × AttachmentInfo))
    (md5 : List Nat → String) (imageSize : List Nat → Option Nat × Option Nat)
    (createResponse : Option AttachmentUploadResponse) :
    Except String (Option UploadedImageData) × List NetCall :=
  let currentFileMd5 := md5 fileBuffer
  let size := imageSize fileBuffer
  let doUpload : Unit → Except String (Option UploadedImageData) × List NetCall :=
    fun _ =>
      (match createResponse with
       | none => (.error "Issue uploading buffer",
           [NetCall.createAttachment pageId uploadFilename currentFileMd5])
       | some r =>
         (.ok (some { filename := uploadFilename
                      id := r.fileId
                      collection := "contentId-" ++ r.containerId
                      width := size.1.getD 0
                      height := size.2.getD 0
                      status := .uploaded }),
          [NetCall.createAttachment pageId uploadFilename currentFileMd5]))
  match currentAttachments.find? (fun p => p.1 == uploadFilename) with
  | some entry =>
    if entry.2.filehash == currentFileMd5 then
      (.ok (some { filename := uploadFilename
                   id := entry.2.attachmentId
                   collection := entry.2.collectionName
                   width := size.1.getD 0
                   height := size.2.getD 0
                   status := .existing }), [])
    else doUpload ()
  | none => doUpload ()

/-- Translation of `uploadFile` (Attachments.ts): read the bytes (retrying
once with the percent-decoded name), derive the upload key
`md5(filePath) + "-" + filename`, and dedup exactly as `uploadBuffer`;
a file that cannot be read yields `null` with no call. -/
def uploadFile (pageId pageFilePath fileNameToUpload : String)
    (readBinary : String → String → Option BinaryFile)
    (decodeURIFn : String → String)
    (currentAttachments : List (String × AttachmentInfo))
    (md5 : List Nat → String) (md5Str : String → String)
    (imageSize : List Nat → Option Nat × Option Nat)
    (createResponse : Option AttachmentUploadResponse) :
    Except String (Option UploadedImageData) × List NetCall :=
  let firstTry := readBinary fileNameToUpload pageFilePath
  let fileNameForUpload :=
    match firstTry with
    | some _ => fileNameToUpload
    | none => decodeURIFn fileNameToUpload
  let testing :=
    match firstTry with
    | some t => some t
    | none => readBinary (decodeURIFn fileNameToUpload) pageFilePath
  match testing with
  | none => (.ok none, [])
  | some t =>
    let currentFileMd5 := md5 t.contents
    let pathMd5 := md5Str t.filePath
    let uploadFilename := pathMd5 ++ "-" ++ t.filename
    let size := imageSize t.contents
    let doUpload : Unit → Except String (Option UploadedImageData) × List NetCall :=
      fun _ =>
        (match createResponse with
         | none => (.error "Issue uploading image",
             [NetCall.createAttachment pageId uploadFilename currentFileMd5])
         | some r =>
           (.ok (some { filename := fileNameForUpload
                        id := r.fileId
                        collection := "contentId-" ++ r.containerId
                        width := size.1.getD 0
                        height := size.2.getD 0
                        status := .uploaded }),
            [NetCall.createAttachment pageId uploadFilename currentFileMd5]))
    match currentAttachments.find? (fun p => p.1 == uploadFilename) with
    | some entry =>
      if entry.2.filehash == currentFileMd5 then
        (.ok (some { filename := fileNameForUpload
                     id := entry.2.attachmentId
                     collection := entry.2.collectionName
                     width := size.1.getD 0
                     height := size.2.getD 0
                     status := .existing }), [])
      else doUpload ()
    | none => doUpload ()

/-- C5: for both upload entry points, when the current-attachment index
already holds an entry under the derived upload key whose stored hash
equals the MD5 of the bytes being uploaded, the call returns that entry's
attachment id and collection with status `existing` and performs no
attachment-creation call — identical bytes are uploaded to a page at most
once while unchanged. -/
theorem C5_attachment_dedup_skips_upload :
    (∀ (pageId uploadFilename : String) (fileBuffer : List Nat)
       (currentAttachments : List (String × AttachmentInfo))
       (md5 : List Nat → String) (imageSize : List Nat → Option Nat × Option Nat)
       (createResponse : Option AttachmentUploadResponse)
       (entry : String × AttachmentInfo),
       currentAttachments.find? (fun p => p.1 == uploadFilename) = some entry →
       entry.2.filehash = md5 fileBuffer →
       uploadBuffer pageId uploadFilename fileBuffer currentAttachments md5
         imageSize createResponse =
       (.ok (some { filename := uploadFilename
                    id := entry.2.attachmentId
                    collection := entry.2.collectionName
                    width := (imageSize fileBuffer).1.getD 0
                    height := (imageSize fileBuffer).2.getD 0
                    status := .existing }), [])) ∧
    (∀ (pageId pageFilePath fileNameToUpload : String)
       (readBinary : String → String → Option BinaryFile)
       (decodeURIFn : String → String)
       (currentAttachments : List (String × AttachmentInfo))
       (md5 : List Nat → String) (md5Str : String → String)
       (imageSize : List Nat → Option Nat × Option Nat)
       (createResponse : Option AttachmentUploadResponse)
       (t : BinaryFile) (entry : String × AttachmentInfo),
       readBinary fileNameToUpload pageFilePath = some t →
       currentAttachments.find?
         (fun p => p.1 == md5Str t.filePath ++ "-" ++ t.filename) = some entry →
       entry.2.filehash = md5 t.contents →
       uploadFile pageId pageFilePath fileNameToUpload readBinary decodeURIFn
         currentAttachments md5 md5Str imageSize createResponse =
       (.ok (some { filename := fileNameToUpload
                    id := entry.2.attachmentId
                    collection := entry.2.collectionName
                    width := (imageSize t.contents).1.getD 0
                    height := (imageSize t.contents).2.getD 0
                    status := .existing }), [])) := by
  constructor
  · intro pageId uploadFilename fileBuffer currentAttachments md5 imageSize
      createResponse entry hfind hhash
    rw [uploadBuffer.eq_def]
    simp only [hfind, hhash, beq_self_eq_true, if_true]
  · intro pageId pageFilePath fileNameToUpload readBinary decodeURIFn
      currentAttachments md5 md5Str imageSize createResponse t entry hread
      hfind hhash
    rw [uploadFile.eq_def]
    simp only [hread, hfind, hhash, beq_self_eq_true, if_true]

/-- Witness for C5: both entry points applied at a concrete matching index
entry return the stored identifiers with status `existing` and an empty
call trace. -/
theorem C5_attachment_dedup_skips_upload_witness :
    uploadBuffer "p1" "img.png" [1, 2] [("img.png", ⟨"h12", "att1", "col1"⟩)]
      (fun _ => "h12") (fun _ => (some 4, some 5)) none =
    (.ok (some ⟨"img.png", "att1", "col1", 4, 5, .existing⟩), []) ∧
    uploadFile "p1" "/docs/a.md" "img.png"
      (fun _ _ => some ⟨"img.png", "/docs/img.png", [1, 2]⟩) (fun s => s)
      [("ph-img.png", ⟨"h12", "att2", "col2"⟩)]
      (fun _ => "h12") (fun _ => "ph") (fun _ => (some 4, some 5)) none =
    (.ok (some ⟨"img.png", "att2", "col2", 4, 5, .existing⟩), []) :=
  ⟨C5_attachment_dedup_skips_upload.1 "p1" "img.png" [1, 2]
    [("img.png", ⟨"h12", "att1", "col1"⟩)] (fun _ => "h12")
    (fun _ => (some 4, some 5)) none ("img.png", ⟨"h12", "att1", "col1"⟩)
    (by decide) rfl,
   C5_attachment_dedup_skips_upload.2 "p1" "/docs/a.md" "img.png"
    (fun _ _ => some ⟨"img.png", "/docs/img.png", [1, 2]⟩) (fun s => s)
    [("ph-img.png", ⟨"h12", "att2", "col2"⟩)] (fun _ => "h12") (fun _ => "ph")
    (fun _ => (some 4, some 5)) none ⟨"img.png", "/docs/img.png", [1, 2]⟩
    ("ph-img.png", ⟨"h12", "att2", "col2"⟩) rfl (by decide) rfl⟩

/-! ## Remote page resolution (`ensurePageExists`, TreeConfluence.ts)

`ensurePageExists` resolves the remote page for one local file: by pinned
id when the file carries one (with a space-key fallback and 404 handling),
else by a content-type + title search in the target space guarded by the
cross-tree ancestor check, else by creating a blank page.  The remote
responses are an explicit environment; the trace records the remote calls
and the `updateMarkdownValues` metadata write-backs in order. -/

/-- The fields of `LocalAdfFile` that `ensurePageExists` reads. -/
structure LocalAdfFileResolveM where
  pageId : Option String
  pageTitle : String
  contentType : String
  absoluteFilePath : String

/-- A remote content entity as the resolver reads it (`version.number`,
`version.by.accountId`, `body.atlas_doc_format.value`, ancestor ids,
`type`, `space.key`); an absent ancestors array behaves as `[]` at every
use site. -/
structure RemoteContentM where
  id : String
  title : String
  version : Option Nat
  versionBy : Option String
  body : Option String
  ancestors : List String
  ctype : String
  space : Option String

/-- The record `ensurePageExists` returns. -/
structure EnsuredPage where
  id : String
  title : String
  version : Nat
  lastUpdatedBy : String
  existingAdf : Option String
  spaceKey : String
  pageTitle : String
  ancestors : List String
  contentType : String

/-- A call issued during resolution (remote calls and the local metadata
write-back through the adaptor). -/
inductive ResolveCall where
  | getContentById (id : String)
  | getContent (ctype : String) (spaceKey : String) (title : String)
  | createContent (spaceKey : String) (parent : Option String)
      (title : String) (ctype : String)
  | updateMarkdownValues (path : String) (publish : Bool) (pageId : Option String)
deriving DecidableEq, Repr

/-- Remote responses consumed by one `ensurePageExists` run: the
get-by-id outcome (entity or HTTP error status), the by-title search
results, and the entity a create call would return. -/
structure ResolveEnv where
  byId : Except Nat RemoteContentM
  search : List RemoteContentM
  created : RemoteContentM

/-- The diagnostic thrown when neither the API nor the configuration
yields a space key for a pinned page id. -/
def missingSpaceKeyMsg (pageId path : String) : String :=
  "Failed to retrieve space key for page ID: " ++ pageId ++ ". " ++
  "The Confluence API did not return space data for this page. " ++
  "Common causes:\n" ++
  "  - Invalid or non-existent page ID (" ++ pageId ++ ")\n" ++
  "  - Insufficient permissions to access this page\n" ++
  "  - Page may have been deleted or moved\n" ++
  "Solutions:\n" ++
  "  - Add \x22confluenceSpaceKey\x22 to your .markdown-confluence.json configuration file\n" ++
  "  - Verify the page ID in \x27" ++ path ++ "\x27 frontmatter is correct\n" ++
  "  - Check that you have read access to this page in Confluence\n" ++
  "  - Remove the page ID from frontmatter to create a new page instead"

/-- The cross-tree-collision message. -/
def crossTreeMsg (pageTitle : String) : String :=
  pageTitle ++
    " is trying to overwrite a page outside the page tree from the selected top page"

/-- Translation of `ensurePageExists` (TreeConfluence.ts).  A transport
error in the pinned-id fetch is surfaced as `HTTP <status>` (the source
rethrows the original error object); a 404 clears the pinned id via a
`publish: false` write-back first.  The `console.warn` on the space-key
fallback is a log only and is not modelled. -/
def ensurePageExists (file : LocalAdfFileResolveM)
    (spaceKey parentPageId topPageId : String)
    (confluenceSpaceKey : Option String) (env : ResolveEnv) :
    Except String EnsuredPage × List ResolveCall :=
  match file.pageId with
  | some pid =>
    match env.byId with
    | .ok contentById =>
      let pageSpaceKey :=
        match contentById.space with
        | some k => some k
        | none => confluenceSpaceKey
      match pageSpaceKey with
      | none =>
        (.error (missingSpaceKeyMsg pid file.absoluteFilePath),
         [.getContentById pid])
      | some k =>
        (.ok { id := contentById.id
               title := file.pageTitle
               version := contentById.version.getD 1
               lastUpdatedBy := contentById.versionBy.getD "NO ACCOUNT ID"
               existingAdf := contentById.body
               spaceKey := k
               pageTitle := contentById.title
               ancestors := contentById.ancestors
               contentType := contentById.ctype },
         [.getContentById pid,
          .updateMarkdownValues file.absoluteFilePath true (some contentById.id)])
    | .error status =>
      if status == 404 then
        (.error ("HTTP " ++ toString status),
         [.getContentById pid,
          .updateMarkdownValues file.absoluteFilePath false none])
      else
        (.error ("HTTP " ++ toString status), [.getContentById pid])
  | none =>
    let searchCall := ResolveCall.getContent file.contentType spaceKey file.pageTitle
    match env.search.head? with
    | some currentPage =>
      if file.contentType == "page" && !(currentPage.ancestors.contains topPageId)
      then
        (.error (crossTreeMsg file.pageTitle), [searchCall])
      else
        (.ok { id := currentPage.id
               title := file.pageTitle
               version := currentPage.version.getD 1
               lastUpdatedBy := currentPage.versionBy.getD "NO ACCOUNT ID"
               existingAdf := currentPage.body
               spaceKey := spaceKey
               pageTitle := currentPage.title
               ancestors := currentPage.ancestors
               contentType := currentPage.ctype },
         [searchCall,
          .updateMarkdownValues file.absoluteFilePath true (some currentPage.id)])
    | none =>
      (.ok { id := env.created.id
             title := file.pageTitle
             version := env.created.version.getD 1
             lastUpdatedBy := env.created.versionBy.getD "NO ACCOUNT ID"
             existingAdf := env.created.body
             spaceKey := spaceKey
             pageTitle := env.created.title
             ancestors := env.created.ancestors
             contentType := env.created.ctype },
       [searchCall,
        .createContent spaceKey
          (if file.contentType == "page" then some parentPageId else none)
          file.pageTitle file.contentType,
        .updateMarkdownValues file.absoluteFilePath true (some env.created.id)])

/-- C2 (as the code behaves — restricted to content type `page`): a local
node with no pinned remote id whose search-by-title match has no ancestor
equal to the configured top page id fails with the cross-tree-collision
error, and the trace holds only the search read — no create, update, or
metadata write-back. -/
theorem C2_cross_tree_collision_refused (file : LocalAdfFileResolveM)
    (spaceKey parentPageId topPageId : String)
    (confluenceSpaceKey : Option String) (env : ResolveEnv)
    (currentPage : RemoteContentM)
    (hpid : file.pageId = none)
    (hty : file.contentType = "page")
    (hsearch : env.search.head? = some currentPage)
    (hanc : topPageId ∉ currentPage.ancestors) :
    ensurePageExists file spaceKey parentPageId topPageId confluenceSpaceKey
      env =
    (.error (crossTreeMsg file.pageTitle),
     [.getContent file.contentType spaceKey file.pageTitle]) := by
  rw [ensurePageExists.eq_def, hpid]
  simp only [hsearch]
  have hcond : (file.contentType == "page" &&
      !(currentPage.ancestors.contains topPageId)) = true := by
    simp [hty, hanc]
  rw [hcond]
  rfl

/-- Witness for C2 at a concrete blocked node. -/
theorem C2_cross_tree_collision_refused_witness :
    ensurePageExists ⟨none, "T", "page", "/docs/t.md"⟩ "SP" "parent" "top"
      none
      ⟨.error 0, [⟨"99", "T", some 2, some "acc", none, ["elsewhere"],
        "page", none⟩], ⟨"z", "z", none, none, none, [], "page", none⟩⟩ =
    (.error (crossTreeMsg "T"), [.getContent "page" "SP" "T"]) :=
  C2_cross_tree_collision_refused _ "SP" "parent" "top" none _ _ rfl rfl rfl
    (by decide)

/-- Counterexample to C2 as stated for all content types: a `blogpost`
node with no pinned id whose search-by-title match has no ancestor equal
to the top page id is adopted rather than refused — the guard applies only
to content type `page` — and the metadata write-back is performed. -/
theorem C2_blogpost_counterexample :
    (ensurePageExists ⟨none, "B", "blogpost", "/docs/b.md"⟩ "SP" "parent"
      "top" none
      ⟨.error 0, [⟨"77", "B", some 5, some "acc", none, [], "blogpost",
        none⟩], ⟨"z", "z", none, none, none, [], "page", none⟩⟩).2 =
    [.getContent "blogpost" "SP" "B",
     .updateMarkdownValues "/docs/b.md" true (some "77")] ∧
    (ensurePageExists ⟨none, "B", "blogpost", "/docs/b.md"⟩ "SP" "parent"
      "top" none
      ⟨.error 0, [⟨"77", "B", some 5, some "acc", none, [], "blogpost",
        none⟩], ⟨"z", "z", none, none, none, [], "page", none⟩⟩).1 =
    .ok ⟨"77", "B", 5, "acc", none, "SP", "B", [], "blogpost"⟩ :=
  ⟨rfl, rfl⟩

/-! ## Settings combination (AutoSettingsLoader.ts, Settings.ts) -/

/-- The keys of `ConfluenceSettings`. -/
inductive SettingKey where
  | confluenceBaseUrl
  | confluenceParentId
  | confluenceSpaceKey
  | atlassianUserName
  | atlassianApiToken
  | folderToPublish
  | contentRoot
  | firstHeadingPageTitle
deriving DecidableEq, Repr

/-- A partial settings object: present keys map to their runtime values
(`none` is an absent key; a key present with value `undefined` behaves
identically at every use site). -/
def PartialSettings : Type := SettingKey → Option JVal

/-- JavaScript `typeof` for a present-or-absent value. -/
def typeofJ : Option JVal → String
  | none => "undefined"
  | some .null => "object"
  | some (.bool _) => "boolean"
  | some (.num _) => "number"
  | some (.str _) => "string"
  | some (.arr _) => "object"
  | some (.obj _) => "object"

/-- `DEFAULT_SETTINGS` (Settings.ts).  It has no `confluenceSpaceKey`
entry. -/
def DEFAULT_SETTINGS : PartialSettings := fun k =>
  match k with
  | .confluenceBaseUrl => some (.str "")
  | .confluenceParentId => some (.str "")
  | .confluenceSpaceKey => none
  | .atlassianUserName => some (.str "")
  | .atlassianApiToken => some (.str "")
  | .folderToPublish => some (.str "Confluence Pages")
  | .contentRoot => some (.str "")
  | .firstHeadingPageTitle => some (.bool false)

/-- One step of `AutoSettingsLoader.combineSettings`: merge one loader's
partial settings over the accumulator, keeping a present value only when
its runtime type equals the type of that field in `DEFAULT_SETTINGS`. -/
def applyLoader (settings loader : PartialSettings) : PartialSettings :=
  fun k =>
    match loader k with
    | some element =>
      if typeofJ (some element) == typeofJ (DEFAULT_SETTINGS k) then
        some element
      else settings k
    | none => settings k

/-- Left fold of `applyLoader` over the loader list. -/
def combineFrom (acc : PartialSettings) : List PartialSettings → PartialSettings
  | [] => acc
  | loader :: rest => combineFrom (applyLoader acc loader) rest

/-- `AutoSettingsLoader.combineSettings`: fold every loader's partial
settings left to right over the empty object. -/
def combineSettings (loaders : List PartialSettings) : PartialSettings :=
  combineFrom (fun _ => none) loaders

theorem combineFrom_spaceKey_none : ∀ (ls : List PartialSettings)
    (acc : PartialSettings), acc .confluenceSpaceKey = none →
    combineFrom acc ls .confluenceSpaceKey = none
  | [], _, h => h
  | loader :: rest, acc, h => by
    rw [combineFrom]
    refine combineFrom_spaceKey_none rest _ ?_
    rw [applyLoader]
    cases hl : loader .confluenceSpaceKey with
    | none => exact h
    | some v =>
      cases v <;> simp [typeofJ, DEFAULT_SETTINGS] <;> exact h

/-- C10: `combineSettings` keeps a field only when its runtime type equals
the type of that field in `DEFAULT_SETTINGS`; since `DEFAULT_SETTINGS`
has no `confluenceSpaceKey` entry (its type is `undefined`), any
`confluenceSpaceKey` value supplied by any loader is dropped, so the
combined settings never contain `confluenceSpaceKey`. -/
theorem C10_confluenceSpaceKey_always_dropped (loaders : List PartialSettings) :
    combineSettings loaders .confluenceSpaceKey = none :=
  combineFrom_spaceKey_none loaders _ rfl

/-! ## Local tree construction (TreeLocal.ts)

`createFolderStructure` builds the local tree from the discovered Markdown
files: common-path root, per-file insertion, the folder-document
assignment pass (`processNode`) and the title-uniqueness check
(`checkUniquePageTitle`).  `path.sep` is `/`; `path.parse(..).name`,
`path.parse(..).dir` and `path.join` are modelled below; the Markdown
conversion `convertMDtoADF` (with its settings) is an explicit `convert`
parameter, so every theorem holds for any conversion. -/

/-- `s.split(sep)` over characters (JavaScript/Node split semantics:
`"".split` gives `[""]`, separators at the ends give empty segments). -/
def splitCharsAux (sep : Char) : List Char → List Char → List (List Char)
  | [], acc => [acc.reverse]
  | c :: rest, acc =>
    if c == sep then acc.reverse :: splitCharsAux sep rest []
    else splitCharsAux sep rest (c :: acc)

/-- Split a path on `path.sep`. -/
def splitPath (p : String) : List String :=
  (splitCharsAux '/' p.toList []).map String.mk

/-- The index of the last `.` of a file base name, if any. -/
def lastDotIdx (cs : List Char) : Option Nat :=
  match cs.reverse.findIdx? (fun c => c == '.') with
  | some j => some (cs.length - 1 - j)
  | none => none

/-- `path.parse(p).name`: the base name with its last extension removed
(a leading dot is part of the name, as in Node). -/
def parseName (p : String) : String :=
  let base := (splitPath p).getLastD ""
  match lastDotIdx base.toList with
  | some 0 => base
  | some i => String.mk (base.toList.take i)
  | none => base

/-- `path.parse(p).dir`: everything before the last separator. -/
def parseDir (p : String) : String :=
  String.intercalate "/" ((splitPath p).dropLast)

/-- `path.join(a, b)` for the shapes the tree builder produces. -/
def pathJoin (a b : String) : String :=
  if a = "" then b else a ++ "/" ++ b

/-- A discovered Markdown file (adaptors.ts `MarkdownFile`). -/
structure MarkdownFileM where
  folderName : String
  absoluteFilePath : String
  fileName : String
  contents : String
  pageTitle : String
  frontmatter : JVal

/-- A converted local file (Publisher.ts `LocalAdfFile`). -/
structure LocalAdfFile where
  folderName : String
  absoluteFilePath : String
  fileName : String
  contents : Adf
  pageTitle : String
  frontmatter : JVal
  tags : List String
  pageId : Option String
  dontChangeParentPageId : Bool
  contentType : String
  blogPostDate : Option String

/-- Modelled from the spec: the placeholder folder document body
(`folderFile`, whose module FolderFile.ts is not among the sources; the
spec calls it a "placeholder empty-body document"). -/
def folderFile : Adf := Adf.node "doc" none [] .nil

mutual
/-- `LocalAdfFileTreeNode` (Publisher.ts): name, children, optional file. -/
inductive LocalAdfFileTreeNode where
  | mk (name : String) (children : TreeNodeList)
      (file : Option LocalAdfFile)
inductive TreeNodeList where
  | nil
  | cons (hd : LocalAdfFileTreeNode) (tl : TreeNodeList)
end

/-- Node name. -/
def LocalAdfFileTreeNode.name : LocalAdfFileTreeNode → String
  | .mk n _ _ => n

/-- Node children. -/
def LocalAdfFileTreeNode.children : LocalAdfFileTreeNode → TreeNodeList
  | .mk _ cs _ => cs

/-- Node file. -/
def LocalAdfFileTreeNode.file : LocalAdfFileTreeNode → Option LocalAdfFile
  | .mk _ _ f => f

/-- Children as an ordinary list. -/
def TreeNodeList.toL : TreeNodeList → List LocalAdfFileTreeNode
  | .nil => []
  | .cons h t => h :: t.toL

/-- Children from an ordinary list. -/
def TreeNodeList.ofL : List LocalAdfFileTreeNode → TreeNodeList
  | [] => .nil
  | h :: t => .cons h (TreeNodeList.ofL t)

theorem TreeNodeList.toL_ofL (l : List LocalAdfFileTreeNode) :
    (TreeNodeList.ofL l).toL = l := by
  induction l with
  | nil => rfl
  | cons h t ih => simp [TreeNodeList.ofL, TreeNodeList.toL, ih]

theorem TreeNodeList.ofL_toL : ∀ cs : TreeNodeList,
    TreeNodeList.ofL cs.toL = cs
  | .nil => rfl
  | .cons h t => by
    simp [TreeNodeList.toL, TreeNodeList.ofL, TreeNodeList.ofL_toL t]

/-- `createTreeNode` (TreeLocal.ts). -/
def createTreeNode (name : String) : LocalAdfFileTreeNode :=
  .mk name .nil none

/-- `addFileToTree` (TreeLocal.ts), with the relative path already split
into segments.  A path whose remainder is empty pushes a file node;
otherwise the first matching child folder is reused (first occurrence
wins) or a new one is appended, and insertion recurses into it.  An empty
segment list cannot be produced by `split` and leaves the node
unchanged. -/
def addFileToTree : LocalAdfFileTreeNode → LocalAdfFile → List String →
    LocalAdfFileTreeNode
  | treeNode, _, [] => treeNode
  | .mk name children f, adfFile, folderName :: rest =>
    if rest.isEmpty then
      .mk name (TreeNodeList.ofL (children.toL ++
        [LocalAdfFileTreeNode.mk folderName .nil (some adfFile)])) f
    else
      match children.toL.findIdx? (fun node => node.name == folderName) with
      | some i =>
        .mk name (TreeNodeList.ofL (children.toL.set i
          (addFileToTree (children.toL.getD i (createTreeNode folderName))
            adfFile rest))) f
      | none =>
        .mk name (TreeNodeList.ofL (children.toL ++
          [addFileToTree (createTreeNode folderName) adfFile rest])) f

/-- The placeholder document synthesized for a folder with no index file. -/
def placeholderFile (commonPath name : String) : LocalAdfFile :=
  { folderName := name
    absoluteFilePath := pathJoin commonPath name
    fileName := name ++ ".md"
    contents := folderFile
    pageTitle := name
    frontmatter := JVal.objL []
    tags := []
    pageId := none
    dontChangeParentPageId := false
    contentType := "page"
    blogPostDate := none }

/-- The index of the child `processNode` picks as a folder index document:
first child whose base name equals the folder name, else first child whose
base name is exactly `index`, `README` or `readme`. -/
def indexFileIdx (name : String) (cl : List LocalAdfFileTreeNode) :
    Option Nat :=
  match cl.findIdx? (fun child => parseName child.name == name) with
  | some i => some i
  | none => cl.findIdx? (fun child =>
      ["index", "README", "readme"].contains (parseName child.name))

/-- The document a fileless folder node receives, with the index of the
consumed child when one is: the `indexFileIdx` child when it bears a
document, else a placeholder titled after the folder (also when the found
child bears no document, in which case nothing is consumed). -/
def assignedDoc (commonPath name : String)
    (cl : List LocalAdfFileTreeNode) : Option LocalAdfFile × Option Nat :=
  match indexFileIdx name cl with
  | some i =>
    match (cl.getD i (createTreeNode "")).file with
    | some f => (some f, some i)
    | none => (some (placeholderFile commonPath name), none)
  | none => (some (placeholderFile commonPath name), none)

mutual
/-- `processNode` (TreeLocal.ts): assign a folder node its document per
`assignedDoc`, consuming the adopted child, then recurse into the
(possibly reduced) children with the assigned document's directory as
their common path. -/
def processNode (commonPath : String) (node : LocalAdfFileTreeNode) :
    LocalAdfFileTreeNode :=
  match node with
  | .mk name children fileOpt =>
    let assigned : Option LocalAdfFile × Option Nat :=
      match fileOpt with
      | some f => (some f, none)
      | none => assignedDoc commonPath name children.toL
    let childCommonPath :=
      parseDir ((assigned.1.map (fun f => f.absoluteFilePath)).getD commonPath)
    .mk name (processListSkip childCommonPath assigned.2 children) assigned.1
/-- Recurse `processNode` over the children, dropping the consumed child
(at the given index) when there is one. -/
def processListSkip (commonPath : String) (skip : Option Nat) :
    TreeNodeList → TreeNodeList
  | .nil => .nil
  | .cons h t =>
    match skip with
    | some 0 => processListSkip commonPath none t
    | some (k+1) => .cons (processNode commonPath h)
        (processListSkip commonPath (some k) t)
    | none => .cons (processNode commonPath h)
        (processListSkip commonPath none t)
end

/-- The uniqueness-violation message. -/
def titleNotUniqueMsg (t : String) : String :=
  "Page title \x22" ++ t ++ "\x22 is not unique across all files."

mutual
/-- `checkUniquePageTitle` (TreeLocal.ts): walk the tree threading the set
of seen display titles (a node without a document contributes `""`);
the first duplicate aborts with the uniqueness-violation error. -/
def checkUniquePageTitle (node : LocalAdfFileTreeNode)
    (pageTitles : List String) : Except String (List String) :=
  match node with
  | .mk _ children fileOpt =>
    let currentPageTitle := (fileOpt.map (fun f => f.pageTitle)).getD ""
    if pageTitles.contains currentPageTitle then
      .error (titleNotUniqueMsg currentPageTitle)
    else
      checkUniqueList children (currentPageTitle :: pageTitles)
def checkUniqueList : TreeNodeList → List String → Except String (List String)
  | .nil, seen => .ok seen
  | .cons h t, seen =>
    match checkUniquePageTitle h seen with
    | .ok seen2 => checkUniqueList t seen2
    | .error e => .error e
end

/-- Longest common prefix of two segment lists (the splice loop of
`findCommonPath`). -/
def commonOfTwo : List String → List String → List String
  | [], _ => []
  | _ :: _, [] => []
  | a :: as, b :: bs => if a == b then a :: commonOfTwo as bs else []

/-- `findCommonPath` (TreeLocal.ts): segment-wise common prefix of all
paths, rejoined with the separator; an empty input throws. -/
def findCommonPath (paths : List String) : Except String String :=
  match paths with
  | [] => .error "No Paths Provided"
  | first :: rest =>
    .ok (String.intercalate "/"
      (rest.foldl (fun common p => commonOfTwo common (splitPath p))
        (splitPath first)))

/-- `path.relative(base, p)` split into segments, for the component-prefix
bases `findCommonPath` produces (relative of a path to itself is `""`,
which splits to `[""]`). -/
def relativeParts (base p : String) : List String :=
  let parts := (splitPath p).drop (splitPath base).length
  if parts.isEmpty then [""] else parts

/-- `createFolderStructure` (TreeLocal.ts): common root, insertion of every
file at its relative path, the document-assignment pass, then the
title-uniqueness check. -/
def createFolderStructure (markdownFiles : List MarkdownFileM)
    (convert : MarkdownFileM → LocalAdfFile) :
    Except String LocalAdfFileTreeNode :=
  match findCommonPath (markdownFiles.map (fun f => f.absoluteFilePath)) with
  | .error e => .error e
  | .ok commonPath =>
    let rootNode := markdownFiles.foldl
      (fun t f => addFileToTree t (convert f)
        (relativeParts commonPath f.absoluteFilePath))
      (createTreeNode commonPath)
    let processed := processNode commonPath rootNode
    match checkUniquePageTitle processed [] with
    | .error e => .error e
    | .ok _ => .ok processed

/-- A remote call made by `publish()` before local tree construction. -/
inductive PublishCall where
  | getCurrentUser
  | getContentById (id : String)
deriving DecidableEq, Repr

/-- `Publisher.publish()` up to local tree construction (Publisher.ts):
resolve the acting identity when not cached, fetch the configured parent
page, fail when it has no space, read the local files (a local, not
remote, operation) and build the local tree.  When tree construction
throws, the error propagates out of `publish` before
`ensureAllFilesExistInConfluence` is reached, so this prefix fully
determines the failing runs. -/
def publishUpToLocalTree (myAccountIdCached : Option String)
    (confluenceParentId : String) (parentPageSpace : Option String)
    (files : List MarkdownFileM) (convert : MarkdownFileM → LocalAdfFile) :
    Except String LocalAdfFileTreeNode × List PublishCall :=
  let calls :=
    (if myAccountIdCached.isNone then [PublishCall.getCurrentUser] else []) ++
    [PublishCall.getContentById confluenceParentId]
  if parentPageSpace.isNone then (.error "Missing Space Key", calls)
  else (createFolderStructure files convert, calls)

mutual
/-- All display titles of a built tree, in the traversal order of
`checkUniquePageTitle`. -/
def collectTitles (node : LocalAdfFileTreeNode) : List String :=
  match node with
  | .mk _ children fileOpt =>
    ((fileOpt.map (fun f => f.pageTitle)).getD "") :: collectTitlesL children
def collectTitlesL : TreeNodeList → List String
  | .nil => []
  | .cons h t => collectTitles h ++ collectTitlesL t
end

theorem processListSkip_none_toL (cp : String) : ∀ cs : TreeNodeList,
    (processListSkip cp none cs).toL = cs.toL.map (processNode cp)
  | .nil => rfl
  | .cons h t => by
    simp [processListSkip, TreeNodeList.toL, processListSkip_none_toL cp t]

theorem processListSkip_some_toL (cp : String) :
    ∀ (i : Nat) (cs : TreeNodeList),
    (processListSkip cp (some i) cs).toL =
      (cs.toL.eraseIdx i).map (processNode cp)
  | _, .nil => by simp [processListSkip, TreeNodeList.toL]
  | 0, .cons h t => by
    simp [processListSkip, TreeNodeList.toL, processListSkip_none_toL cp t]
  | (k+1), .cons h t => by
    simp [processListSkip, TreeNodeList.toL,
      processListSkip_some_toL cp k t]

theorem processListSkip_none_eq (cp : String) (cs : TreeNodeList) :
    processListSkip cp none cs =
      TreeNodeList.ofL (cs.toL.map (processNode cp)) := by
  conv_rhs => rw [← processListSkip_none_toL cp cs]
  rw [TreeNodeList.ofL_toL]

theorem processListSkip_some_eq (cp : String) (i : Nat) (cs : TreeNodeList) :
    processListSkip cp (some i) cs =
      TreeNodeList.ofL ((cs.toL.eraseIdx i).map (processNode cp)) := by
  conv_rhs => rw [← processListSkip_some_toL cp i cs]
  rw [TreeNodeList.ofL_toL]

theorem assignedDoc_fst_isSome (cp name : String)
    (cl : List LocalAdfFileTreeNode) :
    ((assignedDoc cp name cl).1).isSome = true := by
  unfold assignedDoc
  split
  · split
    · rfl
    · rfl
  · rfl

theorem assignedDoc_of_file (cp name : String)
    (cl : List LocalAdfFileTreeNode) (i : Nat) (f : LocalAdfFile)
    (hidx : indexFileIdx name cl = some i)
    (hf : (cl.getD i (createTreeNode "")).file = some f) :
    assignedDoc cp name cl = (some f, some i) := by
  unfold assignedDoc
  simp only [hidx, hf]

theorem assignedDoc_placeholder (cp name : String)
    (cl : List LocalAdfFileTreeNode)
    (hnone : ∀ i, indexFileIdx name cl = some i →
      (cl.getD i (createTreeNode "")).file = none) :
    assignedDoc cp name cl = (some (placeholderFile cp name), none) := by
  unfold assignedDoc
  cases hidx : indexFileIdx name cl with
  | none => rfl
  | some i => simp only [hnone i hidx]

theorem processNode_none (cp name : String) (children : TreeNodeList) :
    processNode cp (LocalAdfFileTreeNode.mk name children none) =
      LocalAdfFileTreeNode.mk name
        (processListSkip
          (parseDir (((assignedDoc cp name children.toL).1.map
            (fun f => f.absoluteFilePath)).getD cp))
          (assignedDoc cp name children.toL).2 children)
        (assignedDoc cp name children.toL).1 := rfl

mutual
/-- A succeeding uniqueness check means the subtree titles are duplicate
free and disjoint from the already-seen set, and the returned set is
their union with the input set. -/
theorem checkUnique_ok_node : ∀ (node : LocalAdfFileTreeNode)
    (seen s2 : List String),
    checkUniquePageTitle node seen = .ok s2 →
    (collectTitles node).Nodup ∧
    (∀ t ∈ collectTitles node, t ∉ seen) ∧
    (∀ x, x ∈ s2 ↔ x ∈ collectTitles node ∨ x ∈ seen)
  | .mk n children fileOpt, seen, s2 => by
    intro h
    simp only [checkUniquePageTitle] at h
    by_cases hc : ((fileOpt.map (fun f => f.pageTitle)).getD "") ∈ seen
    · rw [if_pos (by simpa using hc)] at h
      cases h
    · rw [if_neg (by simpa using hc)] at h
      have hrec := checkUnique_ok_list children
        (((fileOpt.map (fun f => f.pageTitle)).getD "") :: seen) s2 h
      obtain ⟨hnd, hdisj, hmem⟩ := hrec
      have hnotseen :
          ((fileOpt.map (fun f => f.pageTitle)).getD "") ∉ seen := hc
      refine ⟨?_, ?_, ?_⟩
      · simp only [collectTitles, List.nodup_cons]
        exact ⟨fun hin => (hdisj _ hin (List.mem_cons_self _ _)), hnd⟩
      · intro t ht
        simp only [collectTitles, List.mem_cons] at ht
        rcases ht with rfl | ht
        · exact hnotseen
        · intro hts
          exact hdisj t ht (List.mem_cons_of_mem _ hts)
      · intro x
        rw [hmem x]
        simp [collectTitles, List.mem_cons]
        tauto
theorem checkUnique_ok_list : ∀ (l : TreeNodeList) (seen s2 : List String),
    checkUniqueList l seen = .ok s2 →
    (collectTitlesL l).Nodup ∧
    (∀ t ∈ collectTitlesL l, t ∉ seen) ∧
    (∀ x, x ∈ s2 ↔ x ∈ collectTitlesL l ∨ x ∈ seen)
  | .nil, seen, s2 => by
    intro h
    simp only [checkUniqueList] at h
    cases h
    simp [collectTitlesL]
  | .cons hd tl, seen, s2 => by
    intro h
    simp only [checkUniqueList] at h
    cases hh : checkUniquePageTitle hd seen with
    | error e => rw [hh] at h; cases h
    | ok seen2 =>
      rw [hh] at h
      have h1 := checkUnique_ok_node hd seen seen2 hh
      have h2 := checkUnique_ok_list tl seen2 s2 h
      obtain ⟨hnd1, hdisj1, hmem1⟩ := h1
      obtain ⟨hnd2, hdisj2, hmem2⟩ := h2
      refine ⟨?_, ?_, ?_⟩
      · simp only [collectTitlesL, List.nodup_append]
        refine ⟨hnd1, hnd2, ?_⟩
        intro a ha hb
        exact hdisj2 a hb ((hmem1 a).mpr (Or.inl ha))
      · intro t ht
        simp only [collectTitlesL, List.mem_append] at ht
        rcases ht with ht | ht
        · exact hdisj1 t ht
        · intro hts
          exact hdisj2 t ht ((hmem1 t).mpr (Or.inr hts))
      · intro x
        rw [hmem2 x]
        simp only [collectTitlesL, List.mem_append, hmem1 x]
        tauto
end

mutual
/-- Every error the uniqueness check produces is the uniqueness-violation
message for some title. -/
theorem checkUnique_error_node : ∀ (node : LocalAdfFileTreeNode)
    (seen : List String) (e : String),
    checkUniquePageTitle node seen = .error e →
    ∃ t, e = titleNotUniqueMsg t
  | .mk n children fileOpt, seen, e => by
    intro h
    simp only [checkUniquePageTitle] at h
    by_cases hc : ((fileOpt.map (fun f => f.pageTitle)).getD "") ∈ seen
    · rw [if_pos (by simpa using hc)] at h
      cases h
      exact ⟨_, rfl⟩
    · rw [if_neg (by simpa using hc)] at h
      exact checkUnique_error_list children _ e h
theorem checkUnique_error_list : ∀ (l : TreeNodeList) (seen : List String)
    (e : String), checkUniqueList l seen = .error e →
    ∃ t, e = titleNotUniqueMsg t
  | .nil, seen, e => by intro h; simp only [checkUniqueList] at h; cases h
  | .cons hd tl, seen, e => by
    intro h
    simp only [checkUniqueList] at h
    cases hh : checkUniquePageTitle hd seen with
    | error e0 =>
      rw [hh] at h
      cases h
      exact checkUnique_error_node hd seen _ hh
    | ok seen2 =>
      rw [hh] at h
      exact checkUnique_error_list tl seen2 e h
end

/-- A conversion used to run the tree builder on concrete inputs: the
theorems above hold for every `convert`, this one maps metadata through
and gives every file the empty folder body. -/
def trivialConvert (m : MarkdownFileM) : LocalAdfFile :=
  { folderName := m.folderName
    absoluteFilePath := m.absoluteFilePath
    fileName := m.fileName
    contents := folderFile
    pageTitle := m.pageTitle
    frontmatter := m.frontmatter
    tags := []
    pageId := none
    dontChangeParentPageId := false
    contentType := "page"
    blogPostDate := none }

/-- A concrete file titled `Dup`. -/
def dupFileA : MarkdownFileM :=
  { folderName := "docs"
    absoluteFilePath := "/docs/a.md"
    fileName := "a.md"
    contents := ""
    pageTitle := "Dup"
    frontmatter := JVal.objL [] }

/-- A second concrete file with the same title `Dup`. -/
def dupFileB : MarkdownFileM :=
  { folderName := "docs"
    absoluteFilePath := "/docs/b.md"
    fileName := "b.md"
    contents := ""
    pageTitle := "Dup"
    frontmatter := JVal.objL [] }

/-- C7: a duplicate display title among the built tree nodes makes
`publish` fail with the uniqueness-violation error — but only after the
identity read (`getCurrentUser`, when the account id is not cached) and
the parent-page read (`getContentById`) have already been issued, so the
failure is not before every remote call. -/
theorem C7_duplicate_title_aborts_after_identity_and_parent_reads
    (myAccountIdCached : Option String) (confluenceParentId sp : String)
    (files : List MarkdownFileM) (convert : MarkdownFileM → LocalAdfFile)
    (cp : String)
    (hcp : findCommonPath (files.map (fun f => f.absoluteFilePath)) = .ok cp)
    (hdup : ¬ (collectTitles (processNode cp (files.foldl
        (fun t f => addFileToTree t (convert f)
          (relativeParts cp f.absoluteFilePath))
        (createTreeNode cp)))).Nodup) :
    ∃ t, publishUpToLocalTree myAccountIdCached confluenceParentId (some sp)
        files convert =
      (.error (titleNotUniqueMsg t),
        (if myAccountIdCached.isNone then [PublishCall.getCurrentUser]
          else []) ++ [PublishCall.getContentById confluenceParentId]) := by
  have hpub : publishUpToLocalTree myAccountIdCached confluenceParentId
      (some sp) files convert =
      (createFolderStructure files convert,
        (if myAccountIdCached.isNone then [PublishCall.getCurrentUser]
          else []) ++ [PublishCall.getContentById confluenceParentId]) := by
    simp [publishUpToLocalTree]
  rw [hpub]
  have hcf : ∃ t, createFolderStructure files convert =
      .error (titleNotUniqueMsg t) := by
    simp only [createFolderStructure]
    rw [hcp]
    cases hck : checkUniquePageTitle (processNode cp (files.foldl
        (fun t f => addFileToTree t (convert f)
          (relativeParts cp f.absoluteFilePath))
        (createTreeNode cp))) [] with
    | ok s2 => exact absurd (checkUnique_ok_node _ _ _ hck).1 hdup
    | error e =>
      obtain ⟨t, rfl⟩ := checkUnique_error_node _ _ _ hck
      exact ⟨t, by simp [hck]⟩
  obtain ⟨t, ht⟩ := hcf
  exact ⟨t, by rw [ht]⟩

/-- Witness for C7 on two concrete files sharing the title `Dup`. -/
theorem C7_duplicate_title_aborts_witness :
    ∃ t, publishUpToLocalTree none "p1" (some "SP") [dupFileA, dupFileB]
        trivialConvert =
      (.error (titleNotUniqueMsg t),
        [PublishCall.getCurrentUser, PublishCall.getContentById "p1"]) :=
  C7_duplicate_title_aborts_after_identity_and_parent_reads
    none "p1" "SP" [dupFileA, dupFileB] trivialConvert "/docs"
    rfl (by decide)

/-- On a concrete duplicate-title input the failing run has already
issued the identity and parent reads: its remote-call trace is not
empty, so tree construction does not fail before any remote call. -/
theorem C7_remote_reads_precede_failure_counterexample :
    (publishUpToLocalTree none "p1" (some "SP") [dupFileA, dupFileB]
        trivialConvert).2 =
      [PublishCall.getCurrentUser, PublishCall.getContentById "p1"] ∧
    (publishUpToLocalTree none "p1" (some "SP") [dupFileA, dupFileB]
        trivialConvert).1 = .error (titleNotUniqueMsg "Dup") ∧
    [PublishCall.getCurrentUser, PublishCall.getContentById "p1"] ≠
      ([] : List PublishCall) := by
  refine ⟨by decide, ?_, by decide⟩
  rfl

/-- C8: document assignment for a folder node. One document is always
assigned; a same-named child bearing a file is preferred and consumed;
else the first child whose base name is exactly `index`, `README` or
`readme` (an exact match, not case-insensitive) is adopted and consumed;
else a placeholder titled after the folder is synthesized and no child is
removed. -/
theorem C8_folder_document_assignment (cp name : String)
    (children : TreeNodeList) :
    ((processNode cp (LocalAdfFileTreeNode.mk name children none)).file
      ).isSome = true ∧
    (∀ i f,
      children.toL.findIdx? (fun c => parseName c.name == name) = some i →
      (children.toL.getD i (createTreeNode "")).file = some f →
      processNode cp (LocalAdfFileTreeNode.mk name children none) =
        LocalAdfFileTreeNode.mk name
          (TreeNodeList.ofL ((children.toL.eraseIdx i).map
            (processNode (parseDir f.absoluteFilePath)))) (some f)) ∧
    (∀ i f,
      children.toL.findIdx? (fun c => parseName c.name == name) = none →
      children.toL.findIdx? (fun c =>
        ["index", "README", "readme"].contains (parseName c.name)) =
        some i →
      (children.toL.getD i (createTreeNode "")).file = some f →
      processNode cp (LocalAdfFileTreeNode.mk name children none) =
        LocalAdfFileTreeNode.mk name
          (TreeNodeList.ofL ((children.toL.eraseIdx i).map
            (processNode (parseDir f.absoluteFilePath)))) (some f)) ∧
    ((∀ i, indexFileIdx name children.toL = some i →
        (children.toL.getD i (createTreeNode "")).file = none) →
      processNode cp (LocalAdfFileTreeNode.mk name children none) =
        LocalAdfFileTreeNode.mk name
          (TreeNodeList.ofL (children.toL.map
            (processNode (parseDir (pathJoin cp name)))))
          (some (placeholderFile cp name))) := by
  refine ⟨?_, ?_, ?_, ?_⟩
  · rw [processNode_none]
    exact assignedDoc_fst_isSome cp name children.toL
  · intro i f hfind hf
    have hidx : indexFileIdx name children.toL = some i := by
      simp only [indexFileIdx, hfind]
    rw [processNode_none,
      assignedDoc_of_file cp name children.toL i f hidx hf]
    show LocalAdfFileTreeNode.mk name
      (processListSkip (parseDir f.absoluteFilePath) (some i) children)
      (some f) = _
    rw [processListSkip_some_eq]
  · intro i f hfind1 hfind2 hf
    have hidx : indexFileIdx name children.toL = some i := by
      simp only [indexFileIdx, hfind1, hfind2]
    rw [processNode_none,
      assignedDoc_of_file cp name children.toL i f hidx hf]
    show LocalAdfFileTreeNode.mk name
      (processListSkip (parseDir f.absoluteFilePath) (some i) children)
      (some f) = _
    rw [processListSkip_some_eq]
  · intro hnone
    rw [processNode_none,
      assignedDoc_placeholder cp name children.toL hnone]
    show LocalAdfFileTreeNode.mk name
      (processListSkip (parseDir (pathJoin cp name)) none children)
      (some (placeholderFile cp name)) = _
    rw [processListSkip_none_eq]

/-- A concrete document carried by the same-named child `sub.md`. -/
def c8SubDoc : LocalAdfFile :=
  { folderName := "sub"
    absoluteFilePath := "/c/sub/sub.md"
    fileName := "sub.md"
    contents := folderFile
    pageTitle := "Sub Doc"
    frontmatter := JVal.objL []
    tags := []
    pageId := none
    dontChangeParentPageId := false
    contentType := "page"
    blogPostDate := none }

/-- Witness for C8: a folder `sub` with one same-named child `sub.md`
adopts and consumes that child. -/
theorem C8_folder_document_assignment_witness :
    processNode "/c" (LocalAdfFileTreeNode.mk "sub"
      (TreeNodeList.ofL [LocalAdfFileTreeNode.mk "sub.md" TreeNodeList.nil
        (some c8SubDoc)]) none) =
    LocalAdfFileTreeNode.mk "sub" (TreeNodeList.ofL [])
      (some c8SubDoc) :=
  (C8_folder_document_assignment "/c" "sub"
    (TreeNodeList.ofL [LocalAdfFileTreeNode.mk "sub.md" TreeNodeList.nil
      (some c8SubDoc)])).2.1 0 c8SubDoc (by decide) rfl

/-- A concrete document carried by a child named `INDEX.md`. -/
def c8IndexDoc : LocalAdfFile :=
  { folderName := "sub"
    absoluteFilePath := "/c/sub/INDEX.md"
    fileName := "INDEX.md"
    contents := folderFile
    pageTitle := "Index Doc"
    frontmatter := JVal.objL []
    tags := []
    pageId := none
    dontChangeParentPageId := false
    contentType := "page"
    blogPostDate := none }

/-- A child named `INDEX.md` (base name `INDEX`) bearing a document is
not matched: the index-name comparison is exact, not case-insensitive, so
the folder gets a placeholder titled after itself and the child stays. -/
theorem C8_index_match_not_case_insensitive_counterexample :
    parseName "INDEX.md" = "INDEX" ∧
    ((processNode "/c" (LocalAdfFileTreeNode.mk "sub"
      (TreeNodeList.ofL [LocalAdfFileTreeNode.mk "INDEX.md" TreeNodeList.nil
        (some c8IndexDoc)]) none)).file.map (fun f => f.pageTitle)) =
      some "sub" ∧
    c8IndexDoc.pageTitle = "Index Doc" ∧
    ((processNode "/c" (LocalAdfFileTreeNode.mk "sub"
      (TreeNodeList.ofL [LocalAdfFileTreeNode.mk "INDEX.md" TreeNodeList.nil
        (some c8IndexDoc)]) none)).children.toL.map
          (fun c => c.name)) = ["INDEX.md"] := by
  refine ⟨by decide, by decide, by decide, by decide⟩

/-- Witness for C4 at a concrete unit whose title changed. -/
theorem C4_single_versioned_update_witness :
    isEqual
      (existingDetailsOf
        ⟨Adf.node "doc" none [] .nil, "Old", ["root"], "page"⟩
        ⟨"p1", "New", "page", false, [], Adf.node "doc" none [] .nil⟩)
      (newDetailsOf
        ⟨"p1", "New", "page", false, [], Adf.node "doc" none [] .nil⟩
        ["root"]) = false ∧
    ((updatePageContent (some "me") ["root"] 3
        ⟨Adf.node "doc" none [] .nil, "Old", ["root"], "page"⟩
        ⟨"p1", "New", "page", false, [], Adf.node "doc" none [] .nil⟩
        "me" (fun a => (a, [])) []).2.filter NetCall.isUpdateContent) =
    [NetCall.updateContent "p1" 4
      (newDetailsOf ⟨"p1", "New", "page", false, [], Adf.node "doc" none [] .nil⟩
        ["root"])
      (Adf.node "doc" none [] .nil)] :=
  ⟨by decide,
   C4_single_versioned_update "me" ["root"] 3 _ _ (fun a => (a, [])) [] rfl
     (Or.inr (by decide))⟩

end MdConf
